import Mathlib

/-!
MMapper path machine.

A shallow embedding of `src/pathmachine/pathmachine.cpp` (class `PathMachine`), the
hypothesis-tracking state machine of MMapper, followed by theorems about it.

Conventions of the embedding.

* A member function of `PathMachine` becomes a function from the machine's fields
  (`PathMachine`) to the new fields together with the list of `Effect`s the call
  produced, in program order: the Qt signals it emitted and the calls it made on
  objects of classes defined outside `pathmachine.cpp`.
* Everything the code reads from outside `pathmachine.cpp` (the room factory, the
  answers of the map to `lookingForRooms`, the matchers and strategies) is a field
  of `Env`.  Theorems quantify over every `Env`.
* The answer of the map to a query depends on the query alone.  Within one call the
  machine asks all its questions either after its map-changing signals (`createRoom`
  precedes the one query of that branch) or before them (`AddExit` follows the
  lookups), and the signals are delivered synchronously on one thread.
* `uint` values are `Nat`, and no `uint` operation of the source can wrap.
  Coordinates are `Int` triples.  The two `int` operations `pathmachine.cpp` itself
  performs on a coordinate, `c.z--` and `c.z += 2` in `approved`, are taken modulo
  2^32 as a two's-complement machine computes them (`wrapInt32`).
* A call through a null pointer has no defined outcome.  `retry` is the one member
  function that can make such a call; it returns an `Option`, `none` standing for it.
-/

namespace MMapper

/-! ## Data model -/

/-- Class `Coordinate`: a point of the map, with public members `x`, `y`, `z`. -/
structure Coordinate where
  x : Int
  y : Int
  z : Int
  deriving DecidableEq, Repr

/-- Modelled from the spec: `Coordinate::operator+` (class `Coordinate` is not in
`pathmachine.cpp`), the componentwise sum used for `position + directionVector(move)`. -/
instance : Add Coordinate := ⟨fun a b => ⟨a.x + b.x, a.y + b.y, a.z + b.z⟩⟩

/-- The value a 32-bit two's-complement `int` holds after an operation whose exact
result is `n`: `n` itself between -2^31 and 2^31 - 1, and `n` modulo 2^32 in that
range otherwise. -/
def wrapInt32 (n : Int) : Int :=
  (n + 2147483648) % 4294967296 - 2147483648

/-- The point `c` after `c.z--` (line 251). -/
def Coordinate.below (c : Coordinate) : Coordinate :=
  { c with z := wrapInt32 (c.z - 1) }

/-- The point `c` after `c.z--` (line 251) and then `c.z += 2` (line 258). -/
def Coordinate.above (c : Coordinate) : Coordinate :=
  { c with z := wrapInt32 (wrapInt32 (c.z - 1) + 2) }

/-- Class `Exit`: the ids reached through one direction slot (`outBegin() .. outEnd()`)
and the ids that reach this room through it (`inBegin() .. inEnd()`), each in the
iteration order of the underlying `set<uint>`. -/
structure Exit where
  outgoing : List Nat
  incoming : List Nat
  deriving DecidableEq, Repr

/-- Class `Room` as far as `PathMachine` reads it: `getId()`, `getPosition()`,
`getExitsList()`. -/
structure Room where
  id : Nat
  position : Coordinate
  exitsList : List Exit
  deriving DecidableEq, Repr

/-- Class `ParseEvent`: `getMoveType()`, `getNumSkipped()`, and the property values
the matchers score against (never read by `PathMachine` itself). -/
structure ParseEvent where
  moveType : Nat
  numSkipped : Nat
  properties : List Nat
  deriving DecidableEq, Repr

/-- Class `PathParameters`: the two members `PathMachine` reads. -/
structure PathParameters where
  matchingTolerance : Int
  maxSkipped : Nat
  deriving DecidableEq, Repr

/-- A `const Room *` held by a `Path`.  It points either at the machine's own member
`pathRoot` (`&pathRoot`) or at a room object owned by the map; a map room is
identified with its contents (the map holds one object per room, and it is not
modified while a call of the machine runs). -/
inductive RoomRef where
  | pathRoot
  | mapRoom (r : Room)
  deriving DecidableEq, Repr

/-- Class `Path`, one node of the hypothesis tree: the address of the object (two
`Path *` are equal when the addresses are), `getRoom()`, `getProb()` and
`getParent()`.  The probability is a `double` in the source; the machine only
compares probabilities, so an integer scale stands for it. -/
inductive Path where
  | root (addr : Nat) (room : RoomRef) (prob : Int)
  | fork (addr : Nat) (room : RoomRef) (prob : Int) (parent : Path)
  deriving DecidableEq, Repr

/-- Address of the `Path` object. -/
def Path.addr : Path → Nat
  | .root a _ _ => a
  | .fork a _ _ _ => a

/-- Accessor `Path::getRoom()`. -/
def Path.getRoom : Path → RoomRef
  | .root _ r _ => r
  | .fork _ r _ _ => r

/-- Accessor `Path::getProb()`. -/
def Path.getProb : Path → Int
  | .root _ _ p => p
  | .fork _ _ p _ => p

/-- Accessor `Path::getParent()`; `none` is the null pointer. -/
def Path.getParent : Path → Option Path
  | .root _ _ _ => none
  | .fork _ _ _ q => some q

/-- The three values of the member `state`. -/
inductive PathState where
  | SYNCING
  | APPROVED
  | EXPERIMENTING
  deriving DecidableEq, Repr

/-- The `RoomRecipient` a `lookingForRooms` signal names: the local `Approved appr`,
the local `Syncing sync`, or the `Experimenting * exp`, which is a `Crossover` or a
`OneByOne`. -/
inductive Recipient where
  | appr
  | sync
  | crossover
  | oneByOne
  deriving DecidableEq, Repr

/-- What a call of the machine does to the outside, in program order: the signals
`lookingForRooms` (three overloads), `createRoom`, `scheduleAction(new AddExit ..)`,
`playerMoved`, and the calls on matcher and `Path` objects. -/
inductive Effect where
  | lookingForRoomsId (recipient : Recipient) (id : Nat)
  | lookingForRoomsCoord (recipient : Recipient) (c : Coordinate)
  | lookingForRoomsEvent (recipient : Recipient) (ev : ParseEvent)
  | createRoom (ev : ParseEvent) (c : Coordinate)
  | scheduleAddExit (src : Nat) (dst : Nat) (dir : Nat)
  | playerMoved (c : Coordinate)
  | reset
  | addPath (p : Path)
  | approve (p : Path)
  | deny (p : Path)
  | removeChild (parent : Path) (child : Path)
  | setParentNull (p : Path)
  deriving DecidableEq, Repr

/-- Everything `pathmachine.cpp` reads from classes defined elsewhere.

* `numKnownDirs`, `exitDir`: `factory->numKnownDirs()`, `factory->exitDir(i)`.
* `roomsById`, `roomsAt`, `roomsFor`: the rooms the map pushes into the recipient
  (`receiveRoom`) in answer to `lookingForRooms(recipient, id)`,
  `lookingForRooms(recipient, coordinate)`, `lookingForRooms(recipient, event)`:
  zero, one or many, in the map's order.
* `oneMatch ev tol rooms`: `Approved::oneMatch()` of an `Approved(factory, ev, tol)`
  that received `rooms` since its construction or last `reset()`.
* `syncAccepts`: the acceptance rule of the resync matcher `Syncing`.
* `alloc k`, `initialProb`: address of the `k`-th `Path` allocated during a call and
  the probability the `Path` constructor gives a node.
* `crossoverEvaluate paths pathRoot dirCode params rooms`: `Crossover::evaluate()` of
  a `Crossover(paths, dirCode, params, factory)` that received `rooms`.
* `oneByOneEvaluate ev params pathRoot log`: `OneByOne::evaluate()` of a
  `OneByOne(factory, ev, params, signaler)`; `log` lists, per `addPath(p)`, the path
  and the rooms received before the next `addPath`. -/
structure Env where
  numKnownDirs : Nat
  exitDir : Nat → Coordinate
  roomsById : Nat → List Room
  roomsAt : Coordinate → List Room
  roomsFor : ParseEvent → List Room
  oneMatch : ParseEvent → Int → List Room → Option Room
  syncAccepts : PathParameters → Room → Bool
  alloc : Nat → Nat
  initialProb : Int
  crossoverEvaluate : List Path → Room → Nat → PathParameters → List Room → List Path
  oneByOneEvaluate : ParseEvent → PathParameters → Room → List (Path × List Room) → List Path

/-- The data members of `PathMachine` that the member functions read or write.
`factory` is in `Env`; `signaler` only forwards signals. -/
structure PathMachine where
  params : PathParameters
  pathRoot : Room
  mostLikelyRoom : Room
  lastEvent : Option ParseEvent
  state : PathState
  paths : List Path
  deriving DecidableEq, Repr

/-- Reading through a `const Room *` in machine state `s`. -/
def PathMachine.deref (s : PathMachine) : RoomRef → Room
  | .pathRoot => s.pathRoot
  | .mapRoom r => r

/-- Rooms the map pushes in answer to one effect (none unless it is a query). -/
def Env.answer (env : Env) : Effect → List Room
  | .lookingForRoomsId _ id => env.roomsById id
  | .lookingForRoomsCoord _ c => env.roomsAt c
  | .lookingForRoomsEvent _ ev => env.roomsFor ev
  | _ => []

/-- Rooms a recipient receives, in order, while the given queries are emitted. -/
def Env.received (env : Env) (queries : List Effect) : List Room :=
  queries.flatMap env.answer

/-- Modelled from the spec: the constructor of class `Path` (not in `pathmachine.cpp`)
as called in `new Path(&pathRoot, 0, 0, &signaler)`: a single node without parent
that wraps the given room.  Its address and initial probability are the
environment's. -/
def Path.create (env : Env) (k : Nat) (room : RoomRef) : Path :=
  Path.root (env.alloc k) room env.initialProb

/-- Modelled from the spec: `Syncing::evaluate()` of the resync accumulator (class
`Syncing` is not in `pathmachine.cpp`), built as `Syncing(params, paths, &signaler)`:
"produces, for every accepted candidate, a brand-new single-node Hypothesis tree
rooted at that candidate", added to the list it was given. -/
def Syncing.evaluate (env : Env) (params : PathParameters) (paths : List Path)
    (rooms : List Room) : List Path :=
  paths ++ ((rooms.filter (env.syncAccepts params)).enum.map
    (fun kr => Path.create env kr.1 (RoomRef.mapRoom kr.2)))

/-! ## Member functions of `PathMachine` -/

/-- Function `PathMachine::tryExit` (lines 185-203): one `lookingForRooms(recipient, id)`
per id of the exit's outgoing (`out`) or incoming set. -/
def tryExit (possible : Exit) (recipient : Recipient) (out : Bool) : List Effect :=
  (if out then possible.outgoing else possible.incoming).map
    (Effect.lookingForRoomsId recipient)

/-- Function `PathMachine::tryExits` (lines 162-183). -/
def tryExits (env : Env) (room : Room) (recipient : Recipient) (event : ParseEvent)
    (out : Bool) : List Effect :=
  let move := event.moveType
  if h : move < room.exitsList.length then
    tryExit (room.exitsList.get ⟨move, h⟩) recipient out
  else
    Effect.lookingForRoomsId recipient room.id ::
      (if move ≥ env.numKnownDirs then
        room.exitsList.flatMap (fun possible => tryExit possible recipient out)
      else [])

/-- Function `PathMachine::tryCoordinate` (lines 206-223). -/
def tryCoordinate (env : Env) (room : Room) (recipient : Recipient) (event : ParseEvent) :
    List Effect :=
  let moveCode := event.moveType
  let size := env.numKnownDirs
  if size > moveCode then
    [Effect.lookingForRoomsCoord recipient (room.position + env.exitDir moveCode)]
  else
    (List.range size).map
      (fun i => Effect.lookingForRoomsCoord recipient (room.position + env.exitDir i))

/-- Function `PathMachine::evaluatePaths` (lines 339-360). -/
def evaluatePaths (s : PathMachine) : PathMachine × List Effect :=
  match s.paths with
  | [] => ({ s with state := PathState.SYNCING }, [])
  | front :: rest =>
    let room := s.deref front.getRoom
    match rest with
    | [] =>
      ({ s with mostLikelyRoom := room, state := PathState.APPROVED, paths := [] },
        [Effect.approve front, Effect.playerMoved room.position])
    | _ :: _ =>
      ({ s with mostLikelyRoom := room, state := PathState.EXPERIMENTING },
        [Effect.playerMoved room.position])

/-- The loop of lines 308-317 in `PathMachine::experimenting`: one `createRoom` for
each path whose room pointer is not yet in the set `pathEnds`. -/
def createRooms (s : PathMachine) (event : ParseEvent) (move : Coordinate) :
    List RoomRef → List Path → List Effect
  | _, [] => []
  | pathEnds, p :: rest =>
    let working := p.getRoom
    if working ∈ pathEnds then createRooms s event move pathEnds rest
    else
      Effect.createRoom event ((s.deref working).position + move) ::
        createRooms s event move (working :: pathEnds) rest

/-- The body of the loop of lines 324-331 in `PathMachine::experimenting` for one
path: `addPath`, then both `tryExits` and `tryCoordinate` on the path's room. -/
def oneByOneStep (env : Env) (s : PathMachine) (event : ParseEvent) (p : Path) :
    List Effect :=
  let working := s.deref p.getRoom
  tryExits env working Recipient.oneByOne event true ++
    tryExits env working Recipient.oneByOne event false ++
    tryCoordinate env working Recipient.oneByOne event

/-- Function `PathMachine::experimenting` (lines 297-337). -/
def experimenting (env : Env) (s : PathMachine) (event : ParseEvent) :
    PathMachine × List Effect :=
  let moveCode := event.moveType
  let move := env.exitDir moveCode
  if event.numSkipped = 0 ∧ moveCode < s.mostLikelyRoom.exitsList.length then
    let dirCode := event.moveType
    let creates := createRooms s event move [] s.paths
    let query := [Effect.lookingForRoomsEvent Recipient.crossover event]
    let newPaths :=
      env.crossoverEvaluate s.paths s.pathRoot dirCode s.params (env.received query)
    let r := evaluatePaths { s with paths := newPaths }
    (r.1, creates ++ query ++ r.2)
  else
    let steps := s.paths.map (fun p => (p, oneByOneStep env s event p))
    let trace := steps.flatMap (fun pq => Effect.addPath pq.1 :: pq.2)
    let log := steps.map (fun pq => (pq.1, env.received pq.2))
    let newPaths := env.oneByOneEvaluate event s.params s.pathRoot log
    let r := evaluatePaths { s with paths := newPaths }
    (r.1, trace ++ r.2)

/-- Function `PathMachine::syncing` (lines 287-294). -/
def syncing (env : Env) (s : PathMachine) (event : ParseEvent) :
    PathMachine × List Effect :=
  let query :=
    if event.numSkipped ≤ s.params.maxSkipped then
      [Effect.lookingForRoomsEvent Recipient.sync event]
    else []
  let newPaths := Syncing.evaluate env s.params s.paths (env.received query)
  let r := evaluatePaths { s with paths := newPaths }
  (r.1, query ++ r.2)

/-- Lines 227-265 of `PathMachine::approved`: the chain of lookups with the local
matcher `appr`.  Returns `perhaps` and the effects so far. -/
def approvedLookup (env : Env) (s : PathMachine) (event : ParseEvent) :
    Option Room × List Effect :=
  let tol := s.params.matchingTolerance
  let q1 := tryExits env s.mostLikelyRoom Recipient.appr event true
  match env.oneMatch event tol (env.received q1) with
  | some perhaps => (some perhaps, q1)
  | none =>
    -- try to match by reverse exit
    let q2 := tryExits env s.mostLikelyRoom Recipient.appr event false
    match env.oneMatch event tol (env.received q2) with
    | some perhaps => (some perhaps, q1 ++ Effect.reset :: q2)
    | none =>
      -- try to match by coordinate
      let q3 := tryCoordinate env s.mostLikelyRoom Recipient.appr event
      match env.oneMatch event tol (env.received q3) with
      | some perhaps => (some perhaps, q1 ++ Effect.reset :: q2 ++ Effect.reset :: q3)
      | none =>
        -- try to match by coordinate one step below expected
        let eDir := env.exitDir event.moveType
        if eDir.z = 0 then
          let c := s.mostLikelyRoom.position + eDir
          let below : Coordinate := { c with z := wrapInt32 (c.z - 1) }
          let q4 := [Effect.lookingForRoomsCoord Recipient.appr below]
          match env.oneMatch event tol (env.received q4) with
          | some perhaps =>
            (some perhaps,
              q1 ++ Effect.reset :: q2 ++ Effect.reset :: q3 ++ Effect.reset :: q4)
          | none =>
            -- try to match by coordinate one step above expected
            let above : Coordinate := { below with z := wrapInt32 (below.z + 2) }
            let q5 := [Effect.lookingForRoomsCoord Recipient.appr above]
            (env.oneMatch event tol (env.received q5),
              q1 ++ Effect.reset :: q2 ++ Effect.reset :: q3 ++ Effect.reset :: q4 ++
                Effect.reset :: q5)
        else
          (none, q1 ++ Effect.reset :: q2 ++ Effect.reset :: q3)

/-- Lines 276-281 of `PathMachine::approved`: the machine just before the call
`experimenting(event)` of line 282. -/
def seedExperimenting (env : Env) (s : PathMachine) : PathMachine :=
  { s with
    state := PathState.EXPERIMENTING
    pathRoot := s.mostLikelyRoom
    paths := Path.create env 0 RoomRef.pathRoot :: s.paths }

/-- Function `PathMachine::approved` (lines 225-284). -/
def approved (env : Env) (s : PathMachine) (event : ParseEvent) :
    PathMachine × List Effect :=
  match approvedLookup env s event with
  | (some perhaps, looked) =>
    let move := event.moveType
    let addExit :=
      if s.mostLikelyRoom.exitsList.length > move then
        [Effect.scheduleAddExit s.mostLikelyRoom.id perhaps.id move]
      else []
    ({ s with mostLikelyRoom := perhaps },
      looked ++ addExit ++ [Effect.playerMoved perhaps.position])
  | (none, looked) =>
    -- couldn't match, give up
    let r := experimenting env (seedExperimenting env s) event
    (r.1, looked ++ r.2)

/-- Function `PathMachine::event` (lines 109-128). -/
def event (env : Env) (s : PathMachine) (ev : ParseEvent) : PathMachine × List Effect :=
  let s1 := { s with lastEvent := some ev }
  match s1.state with
  | PathState.APPROVED => approved env s1 ev
  | PathState.EXPERIMENTING => experimenting env s1 ev
  | PathState.SYNCING => syncing env s1 ev

/-! ## Vocabulary of the statements -/

/-- The effect is the signal `playerMoved`. -/
def Effect.isPlayerMoved : Effect → Bool
  | .playerMoved _ => true
  | _ => false

/-- The effect is `scheduleAction(new AddExit(..))`. -/
def Effect.isAddExit : Effect → Bool
  | .scheduleAddExit _ _ _ => true
  | _ => false

/-- The effect is one of the three `lookingForRooms` signals. -/
def Effect.isQuery : Effect → Bool
  | .lookingForRoomsId _ _ => true
  | .lookingForRoomsCoord _ _ => true
  | .lookingForRoomsEvent _ _ => true
  | _ => false

/-- The effect is a `lookingForRooms` signal naming the given recipient. -/
def Effect.isQueryTo (r : Recipient) : Effect → Bool
  | .lookingForRoomsId r1 _ => r1 = r
  | .lookingForRoomsCoord r1 _ => r1 = r
  | .lookingForRoomsEvent r1 _ => r1 = r
  | _ => false

/-- The effect is a query to the matcher `appr` or the call `appr.reset()`. -/
def Effect.isApprLookup : Effect → Bool
  | .reset => true
  | e => e.isQueryTo Recipient.appr

/-- Number of `playerMoved` signals in a list of effects. -/
def countPlayerMoved (trace : List Effect) : Nat :=
  trace.countP Effect.isPlayerMoved

/-- Number of `AddExit` actions scheduled in a list of effects. -/
def countAddExit (trace : List Effect) : Nat :=
  trace.countP Effect.isAddExit

/-! ## The deterministic lookups, stage by stage -/

/-- Queries of stage `k` of the deterministic step in machine state `s`: (0) the
outgoing exits for the move, (1) the incoming exits, (2) the coordinate at the
expected offset, (3) that coordinate one level below, (4) one level above, the last
two with `z` computed as the `int` operations of lines 251 and 258 do. -/
def stageQueries (env : Env) (s : PathMachine) (ev : ParseEvent) : Nat → List Effect
  | 0 => tryExits env s.mostLikelyRoom Recipient.appr ev true
  | 1 => tryExits env s.mostLikelyRoom Recipient.appr ev false
  | 2 => tryCoordinate env s.mostLikelyRoom Recipient.appr ev
  | 3 => [Effect.lookingForRoomsCoord Recipient.appr
      (s.mostLikelyRoom.position + env.exitDir ev.moveType).below]
  | 4 => [Effect.lookingForRoomsCoord Recipient.appr
      (s.mostLikelyRoom.position + env.exitDir ev.moveType).above]
  | _ => []

/-- What the single-match accumulator reports when it has been fed the answers to
the queries of stage `k` alone: `some m` for a unique match `m`. -/
def stageMatch (env : Env) (s : PathMachine) (ev : ParseEvent) (k : Nat) : Option Room :=
  env.oneMatch ev s.params.matchingTolerance (env.received (stageQueries env s ev k))

/-- The effects of running stages `0 .. k` in order with the matcher reset before
every stage but the first, and nothing else. -/
def stagesTrace (env : Env) (s : PathMachine) (ev : ParseEvent) : Nat → List Effect
  | 0 => stageQueries env s ev 0
  | k + 1 => stagesTrace env s ev k ++ Effect.reset :: stageQueries env s ev (k + 1)

/-- The `AddExit` request of lines 268-272 for a matched room `m`. -/
def addExitRequest (s : PathMachine) (ev : ParseEvent) (m : Room) : List Effect :=
  if ev.moveType < s.mostLikelyRoom.exitsList.length then
    [Effect.scheduleAddExit s.mostLikelyRoom.id m.id ev.moveType]
  else []

/-- The room has a recorded outgoing edge to room `target` in direction slot `dir`. -/
def Room.hasExitTo (room : Room) (dir : Nat) (target : Nat) : Bool :=
  match room.exitsList[dir]? with
  | some e => decide (target ∈ e.outgoing)
  | none => false

/-! ## A small map used to exercise the statements -/

/-- A direction slot without recorded neighbours. -/
def noExit : Exit := ⟨[], []⟩

/-- Room 1 at the origin, six direction slots; slot 0 (north) leads to room 2. -/
def roomL : Room := ⟨1, ⟨0, 0, 0⟩, [⟨[2], []⟩, noExit, noExit, noExit, noExit, noExit]⟩

/-- Room 2, one step north of room 1; entered from room 1 through slot 0. -/
def roomM : Room := ⟨2, ⟨0, 1, 0⟩, [⟨[], [1]⟩, noExit, noExit, noExit, noExit, noExit]⟩

/-- Room 1 before any edge has been recorded. -/
def roomBare : Room := ⟨1, ⟨0, 0, 0⟩, [noExit, noExit, noExit, noExit, noExit, noExit]⟩

/-- Room 1 with an edge recorded in slot 0 to a room 3 that the sample map does not
hold, and entered through slot 0 from room 2. -/
def roomTwoWay : Room :=
  ⟨1, ⟨0, 0, 0⟩, [⟨[3], [2]⟩, noExit, noExit, noExit, noExit, noExit]⟩

/-- Unit offsets of the six compass directions; codes 6 and 7 have no offset. -/
def sampleDir : Nat → Coordinate
  | 0 => ⟨0, 1, 0⟩
  | 1 => ⟨0, -1, 0⟩
  | 2 => ⟨1, 0, 0⟩
  | 3 => ⟨-1, 0, 0⟩
  | 4 => ⟨0, 0, 1⟩
  | 5 => ⟨0, 0, -1⟩
  | _ => ⟨0, 0, 0⟩

/-- A map holding rooms 1 (`roomL`) and 2 (`roomM`), eight known direction codes, a
single-match accumulator that reports a room when exactly one was pushed, and
strategies that fork the first path once per room received. -/
def sampleEnv : Env where
  numKnownDirs := 8
  exitDir := sampleDir
  roomsById := fun i => if i = 1 then [roomL] else if i = 2 then [roomM] else []
  roomsAt := fun c =>
    if c = ⟨0, 0, 0⟩ then [roomL] else if c = ⟨0, 1, 0⟩ then [roomM] else []
  roomsFor := fun _ => [roomL, roomM]
  oneMatch := fun _ _ rooms =>
    match rooms with
    | [r] => some r
    | _ => none
  syncAccepts := fun _ _ => true
  alloc := fun k => 100 + k
  initialProb := 1
  crossoverEvaluate := fun paths _ _ _ rooms =>
    match paths with
    | p :: _ => rooms.map (fun r => Path.fork (200 + r.id) (RoomRef.mapRoom r) 0 p)
    | [] => []
  oneByOneEvaluate := fun _ _ _ log =>
    log.flatMap (fun pr => pr.2.map (fun r => Path.fork (300 + r.id) (RoomRef.mapRoom r) 0 pr.1))

/-- The machine in state `APPROVED` at the given room, with an empty hypothesis set. -/
def approvedAt (room : Room) : PathMachine :=
  { params := ⟨0, 2⟩
    pathRoot := ⟨0, ⟨0, 0, 0⟩, []⟩
    mostLikelyRoom := room
    lastEvent := none
    state := PathState.APPROVED
    paths := [] }

/-- An observation of a move in direction `dir` with `skipped` skipped properties. -/
def moveEvent (dir : Nat) (skipped : Nat) : ParseEvent := ⟨dir, skipped, []⟩

/-- Room 1 with seven direction slots, none recorded. -/
def roomWide : Room :=
  ⟨1, ⟨0, 0, 0⟩, [noExit, noExit, noExit, noExit, noExit, noExit, noExit]⟩

/-- The machine in state `SYNCING` with an empty hypothesis set, as constructed. -/
def syncingMachine : PathMachine :=
  { params := ⟨0, 2⟩
    pathRoot := ⟨0, ⟨0, 0, 0⟩, []⟩
    mostLikelyRoom := ⟨0, ⟨0, 0, 0⟩, []⟩
    lastEvent := none
    state := PathState.SYNCING
    paths := [] }

/-- The machine in state `EXPERIMENTING` with best guess `room` and three leaves: two
on `room` and, between them, one on room 2 (`roomM`). -/
def experimentingAt (room : Room) : PathMachine :=
  { params := ⟨0, 2⟩
    pathRoot := ⟨0, ⟨0, 0, 0⟩, []⟩
    mostLikelyRoom := room
    lastEvent := none
    state := PathState.EXPERIMENTING
    paths := [Path.root 1 (RoomRef.mapRoom room) 5, Path.root 2 (RoomRef.mapRoom roomM) 4,
      Path.root 3 (RoomRef.mapRoom room) 3] }

/-! ## Vocabulary for the strategies -/

/-- The effect is the signal `createRoom`. -/
def Effect.isCreateRoom : Effect → Bool
  | .createRoom _ _ => true
  | _ => false

/-- The distinct members of a list, each kept at its first occurrence. -/
def firstOccurrences {α : Type} [DecidableEq α] : List α → List α
  | [] => []
  | a :: l => a :: (firstOccurrences l).filter (fun b => b ≠ a)

/-- The guard of line 304: no skipped property and a move code below the size of the
exit list of `mostLikelyRoom`. -/
def crossoverGuard (s : PathMachine) (ev : ParseEvent) : Prop :=
  ev.numSkipped = 0 ∧ ev.moveType < s.mostLikelyRoom.exitsList.length

instance (s : PathMachine) (ev : ParseEvent) : Decidable (crossoverGuard s ev) := by
  unfold crossoverGuard
  infer_instance

/-- The hypothesis set `experimenting` hands to `evaluatePaths`: the result of
`Crossover::evaluate()` fed by the whole-map query when the guard of line 304 holds,
and that of `OneByOne::evaluate()` fed path by path otherwise. -/
def strategyResult (env : Env) (s : PathMachine) (ev : ParseEvent) : List Path :=
  if crossoverGuard s ev then
    env.crossoverEvaluate s.paths s.pathRoot ev.moveType s.params (env.roomsFor ev)
  else
    env.oneByOneEvaluate ev s.params s.pathRoot
      (s.paths.map (fun p => (p, env.received (oneByOneStep env s ev p))))

/-! ## Recovery operations of `PathMachine` -/

/-- Function `PathMachine::releaseAllPaths` (lines 68-75). -/
def releaseAllPaths (s : PathMachine) : PathMachine × List Effect :=
  ({ s with paths := [], state := PathState.SYNCING }, s.paths.map Effect.deny)

/-- The loop of lines 136-147 in `PathMachine::deleteMostLikelyRoom`, started with the
given values of `best` (`none` is the null pointer) and `newPaths` on the paths still
to visit.  Returns the final `best`, the final `newPaths` and the `deny()` calls. -/
def deleteLoop (s : PathMachine) :
    Option Path → List Path → List Path → Option Path × List Path × List Effect
  | best, newPaths, [] => (best, newPaths, [])
  | best, newPaths, working :: rest =>
    if (s.deref working.getRoom).id = s.mostLikelyRoom.id then
      let r := deleteLoop s best newPaths rest
      (r.1, r.2.1, Effect.deny working :: r.2.2)
    else
      match best with
      | none => deleteLoop s (some working) newPaths rest
      | some b =>
        if working.getProb > b.getProb then
          deleteLoop s (some working) (newPaths ++ [b]) rest
        else
          deleteLoop s (some b) (newPaths ++ [working]) rest

/-- Lines 134-150 of `PathMachine::deleteMostLikelyRoom`: the list that replaces
`paths` in state `EXPERIMENTING`, `newPaths` with `best` pushed to its front. -/
def prunedPaths (s : PathMachine) : List Path :=
  match (deleteLoop s none [] s.paths).1 with
  | some best => best :: (deleteLoop s none [] s.paths).2.1
  | none => (deleteLoop s none [] s.paths).2.1

/-- Function `PathMachine::deleteMostLikelyRoom` (lines 130-158). -/
def deleteMostLikelyRoom (s : PathMachine) : PathMachine × List Effect :=
  if s.state = PathState.EXPERIMENTING then
    let r := evaluatePaths { s with paths := prunedPaths s }
    (r.1, (deleteLoop s none [] s.paths).2.2 ++ r.2)
  else
    -- throw the parser into syncing
    evaluatePaths { s with paths := [] }

/-- The loop of lines 88-100 in `PathMachine::retry`.  `visited` holds the addresses
of the paths already handled (their parent pointer has been cleared and they have
been denied), `prevPaths` the addresses in the set of the same name.  The result is
`none` when the loop calls `removeChild` through a null `previous` (line 92), which
C++ leaves undefined: the path has no parent, or it is an object met before. -/
def retryLoop : List Nat → List Nat → List Path → List Path → Option (List Path × List Effect)
  | _, _, newPaths, [] => some (newPaths, [])
  | visited, prevPaths, newPaths, working :: rest =>
    if working.addr ∈ visited then none
    else
      match working.getParent with
      | none => none
      | some previous =>
        let own := [Effect.removeChild previous working, Effect.setParentNull working,
          Effect.deny working]
        let next :=
          if previous.addr ∈ prevPaths then
            retryLoop (working.addr :: visited) prevPaths newPaths rest
          else
            retryLoop (working.addr :: visited) (previous.addr :: prevPaths)
              (newPaths ++ [previous]) rest
        next.map (fun r => (r.1, own ++ r.2))

/-- The `switch` of lines 80-105 in `PathMachine::retry`; `none` as in `retryLoop`. -/
def retrySwitch (s : PathMachine) : Option (PathMachine × List Effect) :=
  match s.state with
  | PathState.APPROVED => some ({ s with state := PathState.SYNCING }, [])
  | PathState.EXPERIMENTING =>
    (retryLoop [] [] [] s.paths).map (fun r =>
      ({ s with
          paths := r.1
          state := if r.1 = [] then PathState.SYNCING else s.state }, r.2))
  | PathState.SYNCING => some (s, [])

/-- Function `PathMachine::retry` (lines 77-107): the `switch`, then the replay of
`lastEvent` when there is one. -/
def retry (env : Env) (s : PathMachine) : Option (PathMachine × List Effect) :=
  (retrySwitch s).map (fun r =>
    match r.1.lastEvent with
    | some ev =>
      let e := event env r.1 ev
      (e.1, r.2 ++ e.2)
    | none => r)

/-! ## Vocabulary for the recovery operations -/

/-- The leaf points at the room that `deleteMostLikelyRoom` invalidates: its room id
is the id of the current best guess. -/
def pointsAtBest (s : PathMachine) (p : Path) : Bool :=
  decide ((s.deref p.getRoom).id = s.mostLikelyRoom.id)

/-- The effect is a call of `Path::deny`. -/
def Effect.isDeny : Effect → Bool
  | .deny _ => true
  | _ => false

/-- The distinct `Path` objects of a list (distinct addresses), each kept at its
first occurrence. -/
def firstByAddr : List Path → List Path
  | [] => []
  | p :: l => p :: (firstByAddr l).filter (fun q => q.addr ≠ p.addr)

/-- For each leaf with a parent, in order: detach it from the parent
(`removeChild`, then `setParent(0)`) and only then `deny()` it. -/
def detachEffects (leaves : List Path) : List Effect :=
  leaves.flatMap (fun w =>
    match w.getParent with
    | some q => [Effect.removeChild q w, Effect.setParentNull w, Effect.deny w]
    | none => [])

/-- State and hypothesis set agree: the set is empty in `SYNCING` and in `APPROVED`,
has at least two leaves in `EXPERIMENTING`, and an observation is retained in every
state but `SYNCING`. -/
def Consistent (s : PathMachine) : Prop :=
  (s.state = PathState.SYNCING → s.paths = []) ∧
  (s.state = PathState.APPROVED → s.paths = []) ∧
  (s.state = PathState.EXPERIMENTING → 2 ≤ s.paths.length) ∧
  (s.state ≠ PathState.SYNCING → s.lastEvent ≠ none)

/-- The machines reachable from a freshly constructed one (`SYNCING`, empty set, no
retained observation) by calls of `event`, `retry`, `deleteMostLikelyRoom` and
`releaseAllPaths` that complete, each call with its own environment. -/
inductive Reachable : PathMachine → Prop where
  | init (s : PathMachine) (hstate : s.state = PathState.SYNCING) (hpaths : s.paths = [])
      (hevent : s.lastEvent = none) : Reachable s
  | event (env : Env) (s : PathMachine) (ev : ParseEvent) (h : Reachable s) :
      Reachable (event env s ev).1
  | retry (env : Env) (s : PathMachine) (r : PathMachine × List Effect) (h : Reachable s)
      (hr : retry env s = some r) : Reachable r.1
  | deleteMostLikelyRoom (s : PathMachine) (h : Reachable s) :
      Reachable (deleteMostLikelyRoom s).1
  | releaseAllPaths (s : PathMachine) (h : Reachable s) : Reachable (releaseAllPaths s).1

/-! ## Sample hypothesis sets -/

/-- A node on room 1 (`roomBare`) with two children, one on room 1 and one on room 2. -/
def pathP : Path := Path.root 10 (RoomRef.mapRoom roomBare) 1

/-- First child of `pathP`. -/
def pathA : Path := Path.fork 11 (RoomRef.mapRoom roomL) 1 pathP

/-- Second child of `pathP`. -/
def pathB : Path := Path.fork 12 (RoomRef.mapRoom roomM) 1 pathP

/-- The machine in `EXPERIMENTING` with the leaves `pathA`, `pathB` and the retained
observation "move 0". -/
def siblingsMachine : PathMachine :=
  { params := ⟨0, 2⟩
    pathRoot := ⟨0, ⟨0, 0, 0⟩, []⟩
    mostLikelyRoom := roomL
    lastEvent := some (moveEvent 0 0)
    state := PathState.EXPERIMENTING
    paths := [pathA, pathB] }

/-- The machine in `EXPERIMENTING` with best guess room 1 and four leaves: one on room
1 and three on room 2 with probabilities 1, 3 and 3. -/
def rivalsMachine : PathMachine :=
  { params := ⟨0, 2⟩
    pathRoot := ⟨0, ⟨0, 0, 0⟩, []⟩
    mostLikelyRoom := roomL
    lastEvent := some (moveEvent 0 0)
    state := PathState.EXPERIMENTING
    paths := [Path.root 1 (RoomRef.mapRoom roomL) 9, Path.root 2 (RoomRef.mapRoom roomM) 1,
      Path.root 3 (RoomRef.mapRoom roomM) 3, Path.root 4 (RoomRef.mapRoom roomM) 3] }

end MMapper

namespace MMapper

/-! ## Shape of the effect lists -/

theorem tryExit_queryTo (possible : Exit) (r : Recipient) (out : Bool) :
    ∀ e ∈ tryExit possible r out, e.isQueryTo r = true := by
  intro e he
  simp only [tryExit, List.mem_map] at he
  obtain ⟨i, _, rfl⟩ := he
  simp [Effect.isQueryTo]

theorem tryExits_queryTo (env : Env) (room : Room) (r : Recipient) (ev : ParseEvent)
    (out : Bool) : ∀ e ∈ tryExits env room r ev out, e.isQueryTo r = true := by
  intro e he
  unfold tryExits at he
  simp only at he
  split at he
  · exact tryExit_queryTo _ _ _ e he
  · rcases List.mem_cons.1 he with rfl | he
    · simp [Effect.isQueryTo]
    · split at he
      · obtain ⟨p, _, hp⟩ := List.mem_flatMap.1 he
        exact tryExit_queryTo _ _ _ e hp
      · simp at he

theorem tryCoordinate_queryTo (env : Env) (room : Room) (r : Recipient) (ev : ParseEvent) :
    ∀ e ∈ tryCoordinate env room r ev, e.isQueryTo r = true := by
  intro e he
  unfold tryCoordinate at he
  simp only at he
  split at he
  · rw [List.mem_singleton] at he
    subst he
    simp [Effect.isQueryTo]
  · obtain ⟨i, _, rfl⟩ := List.mem_map.1 he
    simp [Effect.isQueryTo]

theorem isPlayerMoved_of_queryTo (r : Recipient) (e : Effect) (h : e.isQueryTo r = true) :
    e.isPlayerMoved = false := by
  cases e <;> simp_all [Effect.isQueryTo, Effect.isPlayerMoved]

theorem isAddExit_of_queryTo (r : Recipient) (e : Effect) (h : e.isQueryTo r = true) :
    e.isAddExit = false := by
  cases e <;> simp_all [Effect.isQueryTo, Effect.isAddExit]


@[simp] theorem Coordinate.add_x (a b : Coordinate) : (a + b).x = a.x + b.x := rfl
@[simp] theorem Coordinate.add_y (a b : Coordinate) : (a + b).y = a.y + b.y := rfl
@[simp] theorem Coordinate.add_z (a b : Coordinate) : (a + b).z = a.z + b.z := rfl

theorem Coordinate.ext_iff3 (a b : Coordinate) :
    a = b ↔ a.x = b.x ∧ a.y = b.y ∧ a.z = b.z := by
  cases a; cases b; simp

/-- An `int` operation whose exact result fits in 32 bits gives that result. -/
theorem wrapInt32_of_range (n : Int) (hlo : -2147483648 ≤ n) (hhi : n ≤ 2147483647) :
    wrapInt32 n = n := by
  unfold wrapInt32
  rw [Int.emod_eq_of_lt (by omega) (by omega)]
  omega

/-- Decrementing `z` (line 251) gives the point one level below, unless `z` is the
least `int`. -/
theorem below_eq (c : Coordinate) (hlo : -2147483648 < c.z) (hhi : c.z ≤ 2147483647) :
    c.below = c + ⟨0, 0, -1⟩ := by
  rw [Coordinate.ext_iff3]
  simp only [Coordinate.below, Coordinate.add_x, Coordinate.add_y, Coordinate.add_z]
  rw [wrapInt32_of_range _ (by omega) (by omega)]
  omega

/-- At the least `int` the decrement of line 251 wraps to the greatest `int`, and the
addition of line 258 then wraps back to the least `int` plus 1. -/
theorem below_above_least_int :
    (⟨0, 0, -2147483648⟩ : Coordinate).below = ⟨0, 0, 2147483647⟩ ∧
    (⟨0, 0, -2147483648⟩ : Coordinate).above = ⟨0, 0, -2147483647⟩ := by
  decide

/-- Adding 2 to the decremented `z` (line 258) gives the point one level above,
unless `z` is the least or the greatest `int`. -/
theorem above_eq (c : Coordinate) (hlo : -2147483648 < c.z) (hhi : c.z < 2147483647) :
    c.above = c + ⟨0, 0, 1⟩ := by
  rw [Coordinate.ext_iff3]
  simp only [Coordinate.above, Coordinate.add_x, Coordinate.add_y, Coordinate.add_z]
  rw [wrapInt32_of_range (c.z - 1) (by omega) (by omega),
    wrapInt32_of_range _ (by omega) (by omega)]
  omega

/-- The lookup chain of `approved`, written with the stage vocabulary. -/
theorem approvedLookup_eq (env : Env) (s : PathMachine) (ev : ParseEvent) :
    approvedLookup env s ev =
      match stageMatch env s ev 0 with
      | some m => (some m, stagesTrace env s ev 0)
      | none =>
        match stageMatch env s ev 1 with
        | some m => (some m, stagesTrace env s ev 1)
        | none =>
          match stageMatch env s ev 2 with
          | some m => (some m, stagesTrace env s ev 2)
          | none =>
            if (env.exitDir ev.moveType).z = 0 then
              match stageMatch env s ev 3 with
              | some m => (some m, stagesTrace env s ev 3)
              | none => (stageMatch env s ev 4, stagesTrace env s ev 4)
            else (none, stagesTrace env s ev 2) := by
  unfold approvedLookup
  simp only [stageMatch, stagesTrace, stageQueries, Coordinate.below, Coordinate.above,
    List.append_assoc, List.cons_append, List.nil_append]


theorem isPlayerMoved_of_apprLookup (e : Effect) (h : e.isApprLookup = true) :
    e.isPlayerMoved = false := by
  cases e <;> simp_all [Effect.isApprLookup, Effect.isQueryTo, Effect.isPlayerMoved]

theorem isAddExit_of_apprLookup (e : Effect) (h : e.isApprLookup = true) :
    e.isAddExit = false := by
  cases e <;> simp_all [Effect.isApprLookup, Effect.isQueryTo, Effect.isAddExit]

theorem isApprLookup_of_queryTo (e : Effect) (h : e.isQueryTo Recipient.appr = true) :
    e.isApprLookup = true := by
  cases e <;> simp_all [Effect.isApprLookup, Effect.isQueryTo]

theorem stageQueries_queryTo (env : Env) (s : PathMachine) (ev : ParseEvent) (k : Nat) :
    ∀ e ∈ stageQueries env s ev k, e.isQueryTo Recipient.appr = true := by
  intro e he
  match k, he with
  | 0, he => exact tryExits_queryTo _ _ _ _ _ e he
  | 1, he => exact tryExits_queryTo _ _ _ _ _ e he
  | 2, he => exact tryCoordinate_queryTo _ _ _ _ e he
  | 3, he =>
    simp only [stageQueries, List.mem_singleton] at he
    subst he; rfl
  | 4, he =>
    simp only [stageQueries, List.mem_singleton] at he
    subst he; rfl
  | _ + 5, he => simp [stageQueries] at he

theorem stagesTrace_apprLookup (env : Env) (s : PathMachine) (ev : ParseEvent) (k : Nat) :
    ∀ e ∈ stagesTrace env s ev k, e.isApprLookup = true := by
  induction k with
  | zero =>
    intro e he
    exact isApprLookup_of_queryTo e (stageQueries_queryTo env s ev 0 e he)
  | succ k ih =>
    intro e he
    simp only [stagesTrace, List.mem_append, List.mem_cons] at he
    rcases he with he | rfl | he
    · exact ih e he
    · rfl
    · exact isApprLookup_of_queryTo e (stageQueries_queryTo env s ev (k + 1) e he)

/-- Every effect of the lookup chain is a query to `appr` or `appr.reset()`. -/
theorem approvedLookup_apprLookup (env : Env) (s : PathMachine) (ev : ParseEvent) :
    ∀ e ∈ (approvedLookup env s ev).2, e.isApprLookup = true := by
  rw [approvedLookup_eq]
  split
  · exact stagesTrace_apprLookup env s ev 0
  · split
    · exact stagesTrace_apprLookup env s ev 1
    · split
      · exact stagesTrace_apprLookup env s ev 2
      · split
        · split
          · exact stagesTrace_apprLookup env s ev 3
          · exact stagesTrace_apprLookup env s ev 4
        · exact stagesTrace_apprLookup env s ev 2

theorem countPlayerMoved_append (a b : List Effect) :
    countPlayerMoved (a ++ b) = countPlayerMoved a + countPlayerMoved b := by
  simp [countPlayerMoved]

theorem countPlayerMoved_eq_zero (l : List Effect)
    (h : ∀ e ∈ l, e.isPlayerMoved = false) : countPlayerMoved l = 0 := by
  unfold countPlayerMoved
  rw [List.countP_eq_zero]
  intro e he
  simp [h e he]

theorem countAddExit_append (a b : List Effect) :
    countAddExit (a ++ b) = countAddExit a + countAddExit b := by
  simp [countAddExit]

theorem countAddExit_eq_zero (l : List Effect)
    (h : ∀ e ∈ l, e.isAddExit = false) : countAddExit l = 0 := by
  unfold countAddExit
  rw [List.countP_eq_zero]
  intro e he
  simp [h e he]

/-- The state `evaluatePaths` leaves, by cases on the list. -/
theorem evaluatePaths_state (s : PathMachine) :
    (evaluatePaths s).1.state =
      match s.paths with
      | [] => PathState.SYNCING
      | [_] => PathState.APPROVED
      | _ :: _ :: _ => PathState.EXPERIMENTING := by
  rcases h : s.paths with _ | ⟨a, _ | ⟨b, l⟩⟩ <;> simp [evaluatePaths, h]

/-- One `playerMoved` from `evaluatePaths` unless it ends in `SYNCING`. -/
theorem evaluatePaths_countPlayerMoved (s : PathMachine) :
    countPlayerMoved (evaluatePaths s).2 =
      if (evaluatePaths s).1.state = PathState.SYNCING then 0 else 1 := by
  rcases h : s.paths with _ | ⟨a, _ | ⟨b, l⟩⟩ <;>
    simp [evaluatePaths, h, countPlayerMoved, Effect.isPlayerMoved]

theorem createRooms_not_playerMoved (s : PathMachine) (ev : ParseEvent) (move : Coordinate)
    (seen : List RoomRef) (l : List Path) :
    ∀ e ∈ createRooms s ev move seen l, e.isPlayerMoved = false := by
  induction l generalizing seen with
  | nil => simp [createRooms]
  | cons p rest ih =>
    intro e he
    simp only [createRooms] at he
    split at he
    · exact ih _ e he
    · rcases List.mem_cons.1 he with rfl | he
      · rfl
      · exact ih _ e he

theorem oneByOneStep_queryTo (env : Env) (s : PathMachine) (ev : ParseEvent) (p : Path) :
    ∀ e ∈ oneByOneStep env s ev p, e.isQueryTo Recipient.oneByOne = true := by
  intro e he
  simp only [oneByOneStep, List.mem_append] at he
  rcases he with (he | he) | he
  · exact tryExits_queryTo _ _ _ _ _ e he
  · exact tryExits_queryTo _ _ _ _ _ e he
  · exact tryCoordinate_queryTo _ _ _ _ e he

/-- One `playerMoved` from `experimenting` unless it ends in `SYNCING`. -/
theorem experimenting_countPlayerMoved (env : Env) (s : PathMachine) (ev : ParseEvent) :
    countPlayerMoved (experimenting env s ev).2 =
      if (experimenting env s ev).1.state = PathState.SYNCING then 0 else 1 := by
  unfold experimenting
  simp only
  split
  · simp only [countPlayerMoved_append, evaluatePaths_countPlayerMoved]
    rw [countPlayerMoved_eq_zero _ (createRooms_not_playerMoved _ _ _ _ _)]
    simp [countPlayerMoved, Effect.isPlayerMoved]
  · simp only [countPlayerMoved_append, evaluatePaths_countPlayerMoved]
    rw [countPlayerMoved_eq_zero]
    · simp
    · intro e he
      obtain ⟨pq, hpq, hmem⟩ := List.mem_flatMap.1 he
      obtain ⟨p, _, rfl⟩ := List.mem_map.1 hpq
      rcases List.mem_cons.1 hmem with rfl | hmem
      · rfl
      · exact isPlayerMoved_of_queryTo _ e (oneByOneStep_queryTo env s ev p e hmem)

/-- One `playerMoved` from `syncing` unless it ends in `SYNCING`. -/
theorem syncing_countPlayerMoved (env : Env) (s : PathMachine) (ev : ParseEvent) :
    countPlayerMoved (syncing env s ev).2 =
      if (syncing env s ev).1.state = PathState.SYNCING then 0 else 1 := by
  unfold syncing
  simp only [countPlayerMoved_append, evaluatePaths_countPlayerMoved]
  split <;> simp [countPlayerMoved, Effect.isPlayerMoved]

/-- The two ways `approved` ends, by the result of the lookup chain. -/
theorem approved_eq (env : Env) (s : PathMachine) (ev : ParseEvent) :
    approved env s ev =
      match (approvedLookup env s ev).1 with
      | some m =>
        ({ s with mostLikelyRoom := m },
          (approvedLookup env s ev).2 ++ addExitRequest s ev m ++
            [Effect.playerMoved m.position])
      | none =>
        ((experimenting env (seedExperimenting env s) ev).1,
          (approvedLookup env s ev).2 ++ (experimenting env (seedExperimenting env s) ev).2) := by
  unfold approved addExitRequest
  rcases h : approvedLookup env s ev with ⟨_ | m, looked⟩ <;> simp [gt_iff_lt]


/-! ## State after evaluation and position notifications -/

/-- C1: the state `PathMachine::evaluatePaths` leaves is fixed by the number of leaves
of the hypothesis set it is handed: `SYNCING` exactly for the empty set, `APPROVED`
exactly for one leaf, `EXPERIMENTING` exactly for two or more, whatever the state
was before the call. -/
theorem evaluatePaths_state_by_leaf_count (s : PathMachine) :
    ((evaluatePaths s).1.state = PathState.SYNCING ↔ s.paths.length = 0) ∧
    ((evaluatePaths s).1.state = PathState.APPROVED ↔ s.paths.length = 1) ∧
    ((evaluatePaths s).1.state = PathState.EXPERIMENTING ↔ 2 ≤ s.paths.length) ∧
    ∀ before : PathState,
      (evaluatePaths { s with state := before }).1.state = (evaluatePaths s).1.state := by
  refine ⟨?_, ?_, ?_, ?_⟩
  · rw [evaluatePaths_state]
    rcases s.paths with _ | ⟨a, _ | ⟨b, l⟩⟩ <;> simp
  · rw [evaluatePaths_state]
    rcases s.paths with _ | ⟨a, _ | ⟨b, l⟩⟩ <;> simp
  · rw [evaluatePaths_state]
    rcases s.paths with _ | ⟨a, _ | ⟨b, l⟩⟩ <;> simp
  · intro before
    rw [evaluatePaths_state, evaluatePaths_state]

/-- One `playerMoved` from `approved` (entered in state `APPROVED`) unless it ends in
`SYNCING`. -/
theorem approved_countPlayerMoved (env : Env) (s : PathMachine) (ev : ParseEvent)
    (h : s.state = PathState.APPROVED) :
    countPlayerMoved (approved env s ev).2 =
      if (approved env s ev).1.state = PathState.SYNCING then 0 else 1 := by
  have hlook : countPlayerMoved (approvedLookup env s ev).2 = 0 :=
    countPlayerMoved_eq_zero _ (fun e he =>
      isPlayerMoved_of_apprLookup e (approvedLookup_apprLookup _ _ _ e he))
  rw [approved_eq]
  cases (approvedLookup env s ev).1 with
  | some m =>
    have hadd : countPlayerMoved (addExitRequest s ev m) = 0 := by
      unfold addExitRequest
      split <;> rfl
    simp only [countPlayerMoved_append, hlook, hadd, h]
    simp [countPlayerMoved, Effect.isPlayerMoved]
  | none =>
    simp only [countPlayerMoved_append, hlook, experimenting_countPlayerMoved]
    simp

/-- C2: one call of `PathMachine::event`, from any state and with any answers of the
map, the matchers and the strategies, emits `playerMoved` exactly once when it ends
in `APPROVED` or `EXPERIMENTING` and never when it ends in `SYNCING`; this includes
the failure path of `approved` that continues in `experimenting`. -/
theorem event_playerMoved_count (env : Env) (s : PathMachine) (ev : ParseEvent) :
    countPlayerMoved (event env s ev).2 =
      if (event env s ev).1.state = PathState.SYNCING then 0 else 1 := by
  rcases hs : s.state with _ | _ | _
  · simp only [event, hs]
    exact syncing_countPlayerMoved _ _ _
  · simp only [event, hs]
    exact approved_countPlayerMoved _ _ _ rfl
  · simp only [event, hs]
    exact experimenting_countPlayerMoved _ _ _


/-! ## No edge request outside the success branch of `approved` -/

theorem evaluatePaths_countAddExit (s : PathMachine) :
    countAddExit (evaluatePaths s).2 = 0 := by
  rcases h : s.paths with _ | ⟨a, _ | ⟨b, l⟩⟩ <;>
    simp [evaluatePaths, h, countAddExit, Effect.isAddExit]

theorem createRooms_not_addExit (s : PathMachine) (ev : ParseEvent) (move : Coordinate)
    (seen : List RoomRef) (l : List Path) :
    ∀ e ∈ createRooms s ev move seen l, e.isAddExit = false := by
  induction l generalizing seen with
  | nil => simp [createRooms]
  | cons p rest ih =>
    intro e he
    simp only [createRooms] at he
    split at he
    · exact ih _ e he
    · rcases List.mem_cons.1 he with rfl | he
      · rfl
      · exact ih _ e he

/-- Function `experimenting` never schedules an `AddExit`. -/
theorem experimenting_countAddExit (env : Env) (s : PathMachine) (ev : ParseEvent) :
    countAddExit (experimenting env s ev).2 = 0 := by
  unfold experimenting
  simp only
  split
  · simp only [countAddExit_append, evaluatePaths_countAddExit]
    rw [countAddExit_eq_zero _ (createRooms_not_addExit _ _ _ _ _)]
    simp [countAddExit, Effect.isAddExit]
  · simp only [countAddExit_append, evaluatePaths_countAddExit]
    rw [countAddExit_eq_zero]
    intro e he
    obtain ⟨pq, hpq, hmem⟩ := List.mem_flatMap.1 he
    obtain ⟨p, _, rfl⟩ := List.mem_map.1 hpq
    rcases List.mem_cons.1 hmem with rfl | hmem
    · rfl
    · exact isAddExit_of_queryTo _ e (oneByOneStep_queryTo env s ev p e hmem)

/-- The lookup chain schedules no `AddExit`. -/
theorem approvedLookup_countAddExit (env : Env) (s : PathMachine) (ev : ParseEvent) :
    countAddExit (approvedLookup env s ev).2 = 0 :=
  countAddExit_eq_zero _ (fun e he =>
    isAddExit_of_apprLookup e (approvedLookup_apprLookup _ _ _ e he))

/-- The lookup chain emits no `playerMoved`. -/
theorem approvedLookup_countPlayerMoved (env : Env) (s : PathMachine) (ev : ParseEvent) :
    countPlayerMoved (approvedLookup env s ev).2 = 0 :=
  countPlayerMoved_eq_zero _ (fun e he =>
    isPlayerMoved_of_apprLookup e (approvedLookup_apprLookup _ _ _ e he))

theorem hasExitTo_lt (room : Room) (dir target : Nat)
    (h : room.hasExitTo dir target = true) : dir < room.exitsList.length := by
  unfold Room.hasExitTo at h
  by_contra hlt
  rw [List.getElem?_eq_none (Nat.le_of_not_lt hlt)] at h
  simp at h

/-- The success branch of `approved` when the move code indexes the exit list. -/
theorem approved_success_known (env : Env) (s : PathMachine) (ev : ParseEvent) (m : Room)
    (hdir : ev.moveType < s.mostLikelyRoom.exitsList.length)
    (hlookup : (approvedLookup env s ev).1 = some m) :
    approved env s ev =
      ({ s with mostLikelyRoom := m },
        (approvedLookup env s ev).2 ++
          [Effect.scheduleAddExit s.mostLikelyRoom.id m.id ev.moveType,
            Effect.playerMoved m.position]) := by
  rw [approved_eq, hlookup]
  simp [addExitRequest, hdir]

/-! ## Scenarios B and C -/

/-- C3, as stated, fails: in `APPROVED` at room 1, whose slot 0 already records the
edge to room 2, the observation "move 0" is matched to room 2 through that edge, and
`approved` still schedules `AddExit(1, 2, 0)`. -/
theorem scenarioB_schedules_addExit :
    (approvedAt roomL).state = PathState.APPROVED ∧
    (approvedAt roomL).mostLikelyRoom.hasExitTo (moveEvent 0 0).moveType roomM.id = true ∧
    stageMatch sampleEnv (approvedAt roomL) (moveEvent 0 0) 0 = some roomM ∧
    approved sampleEnv (approvedAt roomL) (moveEvent 0 0) =
      ({ approvedAt roomL with mostLikelyRoom := roomM },
        [Effect.lookingForRoomsId Recipient.appr 2, Effect.scheduleAddExit 1 2 0,
          Effect.playerMoved ⟨0, 1, 0⟩]) ∧
    countAddExit (approved sampleEnv (approvedAt roomL) (moveEvent 0 0)).2 = 1 := by
  refine ⟨rfl, rfl, rfl, rfl, rfl⟩

/-- C3 (amended): in `APPROVED` at a room `L` that already records an outgoing edge
to `M` for the move direction `D`, when the deterministic lookup uniquely matches
`M`, `approved` stays in `APPROVED`, makes `M` the current room, emits exactly one
`playerMoved` carrying the position of `M`, and schedules exactly one
`AddExit(L, M, D)` although the edge is recorded: the request depends only on `D`
being below the size of the exit list of `L`. -/
theorem approved_recorded_edge (env : Env) (s : PathMachine) (ev : ParseEvent) (m : Room)
    (hstate : s.state = PathState.APPROVED)
    (hedge : s.mostLikelyRoom.hasExitTo ev.moveType m.id = true)
    (hlookup : (approvedLookup env s ev).1 = some m) :
    approved env s ev =
      ({ s with mostLikelyRoom := m },
        (approvedLookup env s ev).2 ++
          [Effect.scheduleAddExit s.mostLikelyRoom.id m.id ev.moveType,
            Effect.playerMoved m.position]) ∧
    (approved env s ev).1.state = PathState.APPROVED ∧
    (approved env s ev).1.mostLikelyRoom = m ∧
    countPlayerMoved (approved env s ev).2 = 1 ∧
    countAddExit (approved env s ev).2 = 1 := by
  have h := approved_success_known env s ev m (hasExitTo_lt _ _ _ hedge) hlookup
  refine ⟨h, ?_, ?_, ?_, ?_⟩
  · rw [h]; exact hstate
  · rw [h]
  · rw [h]
    simp only [countPlayerMoved_append, approvedLookup_countPlayerMoved]
    rfl
  · rw [h]
    simp only [countAddExit_append, approvedLookup_countAddExit]
    rfl

/-- Witness of `approved_recorded_edge` on the sample map: room 1 with the edge to
room 2 recorded, move 0. -/
theorem approved_recorded_edge_witness :
    approved sampleEnv (approvedAt roomL) (moveEvent 0 0) =
      ({ approvedAt roomL with mostLikelyRoom := roomM },
        (approvedLookup sampleEnv (approvedAt roomL) (moveEvent 0 0)).2 ++
          [Effect.scheduleAddExit (approvedAt roomL).mostLikelyRoom.id roomM.id
              (moveEvent 0 0).moveType,
            Effect.playerMoved roomM.position]) ∧
    (approved sampleEnv (approvedAt roomL) (moveEvent 0 0)).1.state = PathState.APPROVED ∧
    (approved sampleEnv (approvedAt roomL) (moveEvent 0 0)).1.mostLikelyRoom = roomM ∧
    countPlayerMoved (approved sampleEnv (approvedAt roomL) (moveEvent 0 0)).2 = 1 ∧
    countAddExit (approved sampleEnv (approvedAt roomL) (moveEvent 0 0)).2 = 1 :=
  approved_recorded_edge sampleEnv (approvedAt roomL) (moveEvent 0 0) roomM rfl rfl rfl

/-- C4: in `APPROVED` at `L`, (1) when the move code `D` indexes the exit list of `L`,
that slot records no outgoing edge, and the deterministic lookup uniquely matches
`M`, `approved` schedules exactly one `AddExit(L.id, M.id, D)`, naming the id the
current room had before it was replaced, then makes `M` current, stays in `APPROVED`
and emits the position of `M`; (2) when `D` is not below the size of the exit list of
`L`, the call schedules no `AddExit` at all. -/
theorem approved_unrecorded_edge (env : Env) (s : PathMachine) (ev : ParseEvent)
    (hstate : s.state = PathState.APPROVED) :
    (∀ m : Room, ev.moveType < s.mostLikelyRoom.exitsList.length →
      (∀ id, s.mostLikelyRoom.hasExitTo ev.moveType id = false) →
      (approvedLookup env s ev).1 = some m →
        approved env s ev =
          ({ s with mostLikelyRoom := m },
            (approvedLookup env s ev).2 ++
              [Effect.scheduleAddExit s.mostLikelyRoom.id m.id ev.moveType,
                Effect.playerMoved m.position]) ∧
        countAddExit (approved env s ev).2 = 1 ∧
        countPlayerMoved (approved env s ev).2 = 1 ∧
        (approved env s ev).1.state = PathState.APPROVED ∧
        (approved env s ev).1.mostLikelyRoom = m) ∧
    (¬ ev.moveType < s.mostLikelyRoom.exitsList.length →
      countAddExit (approved env s ev).2 = 0) := by
  constructor
  · intro m hdir _ hlookup
    have h := approved_success_known env s ev m hdir hlookup
    refine ⟨h, ?_, ?_, ?_, ?_⟩
    · rw [h]
      simp only [countAddExit_append, approvedLookup_countAddExit]
      rfl
    · rw [h]
      simp only [countPlayerMoved_append, approvedLookup_countPlayerMoved]
      rfl
    · rw [h]; exact hstate
    · rw [h]
  · intro hdir
    rw [approved_eq]
    cases (approvedLookup env s ev).1 with
    | some m =>
      simp only [countAddExit_append, approvedLookup_countAddExit, addExitRequest, hdir]
      rfl
    | none =>
      simp only [countAddExit_append, approvedLookup_countAddExit, experimenting_countAddExit]

/-- Witness of `approved_unrecorded_edge`: from room 1 without recorded edges, move 0
is matched by coordinate to room 2 and `AddExit(1, 2, 0)` is scheduled once; move 8
indexes no slot of the six and nothing is scheduled. -/
theorem approved_unrecorded_edge_witness :
    (approved sampleEnv (approvedAt roomBare) (moveEvent 0 0) =
      ({ approvedAt roomBare with mostLikelyRoom := roomM },
        [Effect.reset, Effect.reset,
          Effect.lookingForRoomsCoord Recipient.appr ⟨0, 1, 0⟩,
          Effect.scheduleAddExit 1 2 0, Effect.playerMoved ⟨0, 1, 0⟩]) ∧
      countAddExit (approved sampleEnv (approvedAt roomBare) (moveEvent 0 0)).2 = 1) ∧
    countAddExit (approved sampleEnv (approvedAt roomBare) (moveEvent 8 0)).2 = 0 :=
  ⟨⟨((approved_unrecorded_edge sampleEnv (approvedAt roomBare) (moveEvent 0 0) rfl).1
        roomM (by decide) (by intro id; rfl) rfl).1,
      ((approved_unrecorded_edge sampleEnv (approvedAt roomBare) (moveEvent 0 0) rfl).1
        roomM (by decide) (by intro id; rfl) rfl).2.1⟩,
    (approved_unrecorded_edge sampleEnv (approvedAt roomBare) (moveEvent 8 0) rfl).2
      (by decide)⟩


/-! ## Order of the fallbacks in `approved` -/

theorem filter_isQuery_stageQueries (env : Env) (s : PathMachine) (ev : ParseEvent) (k : Nat) :
    (stageQueries env s ev k).filter Effect.isQuery = stageQueries env s ev k := by
  rw [List.filter_eq_self]
  intro e he
  have h := stageQueries_queryTo env s ev k e he
  cases e <;> simp_all [Effect.isQueryTo, Effect.isQuery]

/-- The queries in the effects of stages `0 .. k` are those of the stages, in order. -/
theorem filter_isQuery_stagesTrace (env : Env) (s : PathMachine) (ev : ParseEvent) (k : Nat) :
    (stagesTrace env s ev k).filter Effect.isQuery =
      (List.range (k + 1)).flatMap (stageQueries env s ev) := by
  induction k with
  | zero =>
    have h1 : List.range (0 + 1) = [0] := rfl
    rw [h1]
    simp [stagesTrace, filter_isQuery_stageQueries]
  | succ k ih =>
    rw [List.range_succ, List.flatMap_append, ← ih]
    simp [stagesTrace, filter_isQuery_stageQueries, Effect.isQuery]

theorem filter_isQuery_addExitRequest (s : PathMachine) (ev : ParseEvent) (m : Room) :
    (addExitRequest s ev m).filter Effect.isQuery = [] := by
  unfold addExitRequest
  split <;> simp [Effect.isQuery]

/-- C5: the fallbacks of `approved` run in the order outgoing exits, incoming exits,
coordinate at the expected offset, coordinate one level below, one level above (the
last two exist when the offset of the move has `z = 0`), and the first stage `k`
whose matcher reports a unique match `m` wins, whatever the map answers: the result
of the lookup is `m`, the effects up to there are exactly those of stages `0 .. k` with one
`reset()` before each stage after the first, `m` becomes the current room, and the
queries of the whole call are those of stages `0 .. k` only. -/
theorem approved_first_unique_match_wins (env : Env) (s : PathMachine) (ev : ParseEvent)
    (k : Nat) (m : Room) (hk : k < 5)
    (hvert : 3 ≤ k → (env.exitDir ev.moveType).z = 0)
    (hfirst : ∀ j, j < k → stageMatch env s ev j = none)
    (hmatch : stageMatch env s ev k = some m) :
    approvedLookup env s ev = (some m, stagesTrace env s ev k) ∧
    approved env s ev =
      ({ s with mostLikelyRoom := m },
        stagesTrace env s ev k ++ addExitRequest s ev m ++ [Effect.playerMoved m.position]) ∧
    (approved env s ev).2.filter Effect.isQuery =
      (List.range (k + 1)).flatMap (stageQueries env s ev) := by
  have hlook : approvedLookup env s ev = (some m, stagesTrace env s ev k) := by
    rw [approvedLookup_eq]
    interval_cases k
    · simp [hmatch]
    · simp [hfirst 0 (by omega), hmatch]
    · simp [hfirst 0 (by omega), hfirst 1 (by omega), hmatch]
    · simp [hfirst 0 (by omega), hfirst 1 (by omega), hfirst 2 (by omega), hmatch,
        hvert (by omega)]
    · simp [hfirst 0 (by omega), hfirst 1 (by omega), hfirst 2 (by omega),
        hfirst 3 (by omega), hmatch, hvert (by omega)]
  have happ : approved env s ev =
      ({ s with mostLikelyRoom := m },
        stagesTrace env s ev k ++ addExitRequest s ev m ++
          [Effect.playerMoved m.position]) := by
    rw [approved_eq, hlook]
  refine ⟨hlook, happ, ?_⟩
  rw [happ]
  simp [List.filter_append, filter_isQuery_stagesTrace, filter_isQuery_addExitRequest,
    Effect.isQuery]

/-- Witness of `approved_first_unique_match_wins`: at room 1 with slot 0 recording the
edge to room 3 (absent from the map) and entered from room 2, move 0: the outgoing
lookup finds nothing, the incoming lookup (stage 1) matches room 2, and no coordinate
is queried. -/
theorem approved_first_unique_match_wins_witness :
    approvedLookup sampleEnv (approvedAt roomTwoWay) (moveEvent 0 0) =
      (some roomM,
        [Effect.lookingForRoomsId Recipient.appr 3, Effect.reset,
          Effect.lookingForRoomsId Recipient.appr 2]) ∧
    approved sampleEnv (approvedAt roomTwoWay) (moveEvent 0 0) =
      ({ approvedAt roomTwoWay with mostLikelyRoom := roomM },
        [Effect.lookingForRoomsId Recipient.appr 3, Effect.reset,
          Effect.lookingForRoomsId Recipient.appr 2, Effect.scheduleAddExit 1 2 0,
          Effect.playerMoved ⟨0, 1, 0⟩]) ∧
    (approved sampleEnv (approvedAt roomTwoWay) (moveEvent 0 0)).2.filter Effect.isQuery =
      [Effect.lookingForRoomsId Recipient.appr 3, Effect.lookingForRoomsId Recipient.appr 2] :=
  approved_first_unique_match_wins sampleEnv (approvedAt roomTwoWay) (moveEvent 0 0) 1 roomM
    (by decide) (by decide) (by intro j hj; interval_cases j; rfl) rfl


theorem received_singleton_coord (env : Env) (r : Recipient) (c : Coordinate) :
    env.received [Effect.lookingForRoomsCoord r c] = env.roomsAt c := by
  simp [Env.received, Env.answer]

/-- C6: once the outgoing, incoming and expected-coordinate lookups of `approved` have
failed, the vertical fallbacks run exactly when the offset of the move has `z = 0`.
They query the expected coordinate `position + offset` with `z` decremented (`c.z--`)
and, only when that gives no unique match, the same coordinate with 2 added to the
decremented `z` (`c.z += 2`), both as `int` operations.  Whenever `z` of the expected
coordinate is neither the least nor the greatest `int`, these are exactly
`position + offset + (0,0,-1)` and `position + offset + (0,0,1)`.  When `z` of the
offset is not 0 the lookup ends after the third stage without a match and without a
further query, and the call continues as a failed step in `experimenting`. -/
theorem approved_vertical_fallbacks (env : Env) (s : PathMachine) (ev : ParseEvent)
    (h0 : stageMatch env s ev 0 = none) (h1 : stageMatch env s ev 1 = none)
    (h2 : stageMatch env s ev 2 = none) :
    approvedLookup env s ev =
      (if (env.exitDir ev.moveType).z = 0 then
        match env.oneMatch ev s.params.matchingTolerance
            (env.roomsAt (s.mostLikelyRoom.position + env.exitDir ev.moveType).below) with
        | some m =>
          (some m, stagesTrace env s ev 2 ++
            [Effect.reset,
              Effect.lookingForRoomsCoord Recipient.appr
                (s.mostLikelyRoom.position + env.exitDir ev.moveType).below])
        | none =>
          (env.oneMatch ev s.params.matchingTolerance
              (env.roomsAt (s.mostLikelyRoom.position + env.exitDir ev.moveType).above),
            stagesTrace env s ev 2 ++
              [Effect.reset,
                Effect.lookingForRoomsCoord Recipient.appr
                  (s.mostLikelyRoom.position + env.exitDir ev.moveType).below,
                Effect.reset,
                Effect.lookingForRoomsCoord Recipient.appr
                  (s.mostLikelyRoom.position + env.exitDir ev.moveType).above])
      else (none, stagesTrace env s ev 2)) ∧
    ((env.exitDir ev.moveType).z ≠ 0 →
      approved env s ev =
        ((experimenting env (seedExperimenting env s) ev).1,
          stagesTrace env s ev 2 ++ (experimenting env (seedExperimenting env s) ev).2)) ∧
    ((s.mostLikelyRoom.position + env.exitDir ev.moveType).below =
        { x := (s.mostLikelyRoom.position + env.exitDir ev.moveType).x
          y := (s.mostLikelyRoom.position + env.exitDir ev.moveType).y
          z := wrapInt32 ((s.mostLikelyRoom.position + env.exitDir ev.moveType).z - 1) } ∧
      (s.mostLikelyRoom.position + env.exitDir ev.moveType).above =
        { x := (s.mostLikelyRoom.position + env.exitDir ev.moveType).x
          y := (s.mostLikelyRoom.position + env.exitDir ev.moveType).y
          z := wrapInt32
            (wrapInt32 ((s.mostLikelyRoom.position + env.exitDir ev.moveType).z - 1) + 2) }) ∧
    (-2147483648 < (s.mostLikelyRoom.position + env.exitDir ev.moveType).z →
      (s.mostLikelyRoom.position + env.exitDir ev.moveType).z < 2147483647 →
        (s.mostLikelyRoom.position + env.exitDir ev.moveType).below =
            s.mostLikelyRoom.position + env.exitDir ev.moveType + ⟨0, 0, -1⟩ ∧
          (s.mostLikelyRoom.position + env.exitDir ev.moveType).above =
            s.mostLikelyRoom.position + env.exitDir ev.moveType + ⟨0, 0, 1⟩) := by
  have hlook := approvedLookup_eq env s ev
  simp only [h0, h1, h2] at hlook
  refine ⟨?_, ?_, ⟨rfl, rfl⟩, ?_⟩
  · rw [hlook]
    split
    · simp only [stageMatch, stageQueries, received_singleton_coord]
      split <;> simp [stagesTrace, stageQueries]
    · rfl
  · intro hz
    rw [approved_eq, hlook]
    simp [hz]
  · intro hlo hhi
    exact ⟨below_eq _ hlo (by omega), above_eq _ hlo hhi⟩

/-- Witness of `approved_vertical_fallbacks`: from room 1 without recorded edges, move
2 (east, `z = 0`) finds nothing at `(1,0,0)`, then queries `(1,0,-1)` and `(1,0,1)`,
which are `(1,0,0) + (0,0,-1)` and `(1,0,0) + (0,0,1)`; move 4 (up, `z = 1`) stops
after the coordinate `(0,0,1)`. -/
theorem approved_vertical_fallbacks_witness :
    approvedLookup sampleEnv (approvedAt roomBare) (moveEvent 2 0) =
      (none,
        [Effect.reset, Effect.reset,
          Effect.lookingForRoomsCoord Recipient.appr ⟨1, 0, 0⟩, Effect.reset,
          Effect.lookingForRoomsCoord Recipient.appr ⟨1, 0, -1⟩, Effect.reset,
          Effect.lookingForRoomsCoord Recipient.appr ⟨1, 0, 1⟩]) ∧
    ((⟨1, 0, 0⟩ : Coordinate).below = ⟨1, 0, 0⟩ + ⟨0, 0, -1⟩ ∧
      (⟨1, 0, 0⟩ : Coordinate).above = ⟨1, 0, 0⟩ + ⟨0, 0, 1⟩) ∧
    approvedLookup sampleEnv (approvedAt roomBare) (moveEvent 4 0) =
      (none,
        [Effect.reset, Effect.reset,
          Effect.lookingForRoomsCoord Recipient.appr ⟨0, 0, 1⟩]) :=
  ⟨(approved_vertical_fallbacks sampleEnv (approvedAt roomBare) (moveEvent 2 0)
      rfl rfl rfl).1,
    (approved_vertical_fallbacks sampleEnv (approvedAt roomBare) (moveEvent 2 0)
      rfl rfl rfl).2.2.2 (by decide) (by decide),
    (approved_vertical_fallbacks sampleEnv (approvedAt roomBare) (moveEvent 4 0)
      rfl rfl rfl).1⟩

/-! ## Failure of the deterministic step -/

theorem evaluatePaths_not_query (s : PathMachine) :
    ∀ e ∈ (evaluatePaths s).2, e.isQuery = false ∧ e.isCreateRoom = false := by
  rcases h : s.paths with _ | ⟨a, _ | ⟨b, l⟩⟩ <;>
    simp [evaluatePaths, h, Effect.isQuery, Effect.isCreateRoom]

/-- C8: in `SYNCING` (hypothesis set empty), an observation with more skipped
properties than `params.maxSkipped` makes `PathMachine::event` do nothing but retain
the observation: no effect at all (no query, no `playerMoved`), set still empty,
state still `SYNCING`; an observation with at most `maxSkipped` skipped properties
issues exactly one query, the whole-map `lookingForRooms(&sync, event)`, as the first
effect. -/
theorem event_syncing_skipped (env : Env) (s : PathMachine) (ev : ParseEvent)
    (hstate : s.state = PathState.SYNCING) (hempty : s.paths = []) :
    (s.params.maxSkipped < ev.numSkipped →
      event env s ev = ({ s with lastEvent := some ev }, [])) ∧
    (ev.numSkipped ≤ s.params.maxSkipped →
      (event env s ev).2.filter Effect.isQuery =
        [Effect.lookingForRoomsEvent Recipient.sync ev] ∧
      (event env s ev).2.head? = some (Effect.lookingForRoomsEvent Recipient.sync ev)) := by
  constructor
  · intro hskip
    have hnot : ¬ ev.numSkipped ≤ s.params.maxSkipped := Nat.not_le.2 hskip
    simp only [event, hstate, syncing, hnot, if_false, hempty]
    simp only [Env.received, List.flatMap_nil, List.filter_nil, Syncing.evaluate,
      List.enum_nil, List.map_nil, List.append_nil, evaluatePaths]
  · intro hskip
    simp only [event, hstate, syncing, hskip, if_true]
    constructor
    · have hrest : ∀ r : PathMachine, (evaluatePaths r).2.filter Effect.isQuery = [] := by
        intro r
        rw [List.filter_eq_nil_iff]
        intro e he
        simp [(evaluatePaths_not_query r e he).1]
      rw [List.filter_append, hrest]
      simp [Effect.isQuery]
    · rfl

/-- Witness of `event_syncing_skipped`: with `maxSkipped = 2`, an observation with 3
skipped properties changes nothing; one with 2 issues the whole-map query. -/
theorem event_syncing_skipped_witness :
    event sampleEnv syncingMachine (moveEvent 0 3) =
      ({ syncingMachine with lastEvent := some (moveEvent 0 3) }, []) ∧
    (event sampleEnv syncingMachine (moveEvent 0 2)).2.filter Effect.isQuery =
      [Effect.lookingForRoomsEvent Recipient.sync (moveEvent 0 2)] :=
  ⟨(event_syncing_skipped sampleEnv syncingMachine (moveEvent 0 3) rfl rfl).1 (by decide),
    ((event_syncing_skipped sampleEnv syncingMachine (moveEvent 0 2) rfl rfl).2
      (by decide)).1⟩


/-! ## Choice of the strategy in `experimenting` -/

/-- The two branches of `experimenting`, by the guard of line 304. -/
theorem experimenting_eq (env : Env) (s : PathMachine) (ev : ParseEvent) :
    experimenting env s ev =
      ((evaluatePaths { s with paths := strategyResult env s ev }).1,
        (if crossoverGuard s ev then
          createRooms s ev (env.exitDir ev.moveType) [] s.paths ++
            [Effect.lookingForRoomsEvent Recipient.crossover ev]
        else
          s.paths.flatMap (fun p => Effect.addPath p :: oneByOneStep env s ev p)) ++
        (evaluatePaths { s with paths := strategyResult env s ev }).2) := by
  unfold experimenting strategyResult crossoverGuard
  simp only
  split
  · simp [Env.received, Env.answer]
  · simp [List.flatMap_map, List.map_map, Function.comp_def]

theorem createRooms_not_query (s : PathMachine) (ev : ParseEvent) (move : Coordinate)
    (seen : List RoomRef) (l : List Path) :
    ∀ e ∈ createRooms s ev move seen l, e.isCreateRoom = true := by
  induction l generalizing seen with
  | nil => simp [createRooms]
  | cons p rest ih =>
    intro e he
    simp only [createRooms] at he
    split at he
    · exact ih _ e he
    · rcases List.mem_cons.1 he with rfl | he
      · rfl
      · exact ih _ e he

/-- C9, as stated, fails: with eight known direction codes, no skipped property and
move code 6 (a known code), `experimenting` at a best guess with six direction slots
takes the brute-force branch (it starts with `addPath` and never queries the
`Crossover`), while the same call at a best guess with seven slots takes the
connectivity-guided branch. -/
theorem experimenting_choice_depends_on_best_guess :
    (moveEvent 6 0).numSkipped = 0 ∧
    (moveEvent 6 0).moveType < sampleEnv.numKnownDirs ∧
    Effect.lookingForRoomsEvent Recipient.crossover (moveEvent 6 0) ∉
      (experimenting sampleEnv (experimentingAt roomL) (moveEvent 6 0)).2 ∧
    (experimenting sampleEnv (experimentingAt roomL) (moveEvent 6 0)).2.head? =
      some (Effect.addPath (Path.root 1 (RoomRef.mapRoom roomL) 5)) ∧
    Effect.lookingForRoomsEvent Recipient.crossover (moveEvent 6 0) ∈
      (experimenting sampleEnv (experimentingAt roomWide) (moveEvent 6 0)).2 := by
  refine ⟨rfl, by decide, by decide, rfl, by decide⟩

/-- C9 (amended): `experimenting` takes the connectivity-guided branch (`Crossover`)
exactly when the observation has no skipped property and its move code is below the
size of the exit list of the current best guess `mostLikelyRoom`, and the
brute-force branch (`OneByOne`) in every other case; the set it evaluates is the
result of the strategy so chosen, and every query of the call names that strategy
as recipient. -/
theorem experimenting_strategy_choice (env : Env) (s : PathMachine) (ev : ParseEvent) :
    (Effect.lookingForRoomsEvent Recipient.crossover ev ∈ (experimenting env s ev).2 ↔
      (ev.numSkipped = 0 ∧ ev.moveType < s.mostLikelyRoom.exitsList.length)) ∧
    (experimenting env s ev).1 =
      (evaluatePaths { s with paths :=
        (if ev.numSkipped = 0 ∧ ev.moveType < s.mostLikelyRoom.exitsList.length then
          env.crossoverEvaluate s.paths s.pathRoot ev.moveType s.params (env.roomsFor ev)
        else
          env.oneByOneEvaluate ev s.params s.pathRoot
            (s.paths.map (fun p => (p, env.received (oneByOneStep env s ev p))))) }).1 ∧
    (∀ e ∈ (experimenting env s ev).2, e.isQuery = true →
      e.isQueryTo
        (if ev.numSkipped = 0 ∧ ev.moveType < s.mostLikelyRoom.exitsList.length then
          Recipient.crossover else Recipient.oneByOne) = true) := by
  have heq := experimenting_eq env s ev
  refine ⟨?_, ?_, ?_⟩
  · rw [heq]
    simp only [List.mem_append]
    constructor
    · rintro (h | h)
      · by_contra hg
        have hg2 : ¬ crossoverGuard s ev := hg
        rw [if_neg hg2] at h
        obtain ⟨p, _, hp⟩ := List.mem_flatMap.1 h
        rcases List.mem_cons.1 hp with hp | hp
        · cases hp
        · have := oneByOneStep_queryTo env s ev p _ hp
          simp [Effect.isQueryTo] at this
      · have := (evaluatePaths_not_query _ _ h).1
        simp [Effect.isQuery] at this
    · intro hg
      have hg2 : crossoverGuard s ev := hg
      left
      rw [if_pos hg2]
      simp
  · rw [heq]
    rfl
  · intro e he hq
    rw [heq] at he
    simp only [List.mem_append] at he
    rcases he with he | he
    · by_cases hg : crossoverGuard s ev
      · have hg3 : ev.numSkipped = 0 ∧ ev.moveType < s.mostLikelyRoom.exitsList.length := hg
        rw [if_pos hg] at he
        rw [if_pos hg3]
        rcases List.mem_append.1 he with he | he
        · have := createRooms_not_query _ _ _ _ _ e he
          cases e <;> simp_all [Effect.isCreateRoom, Effect.isQuery]
        · rw [List.mem_singleton] at he
          subst he
          simp [Effect.isQueryTo]
      · have hg3 : ¬ (ev.numSkipped = 0 ∧ ev.moveType < s.mostLikelyRoom.exitsList.length) := hg
        rw [if_neg hg] at he
        rw [if_neg hg3]
        obtain ⟨p, _, hp⟩ := List.mem_flatMap.1 he
        rcases List.mem_cons.1 hp with hp | hp
        · subst hp
          simp [Effect.isQuery] at hq
        · exact oneByOneStep_queryTo env s ev p _ hp
    · have := (evaluatePaths_not_query _ _ he).1
      rw [this] at hq
      cases hq


/-! ## Create-room requests of the connectivity-guided branch -/

theorem mem_firstOccurrences {α : Type} [DecidableEq α] (l : List α) (a : α) :
    a ∈ firstOccurrences l ↔ a ∈ l := by
  induction l with
  | nil => simp [firstOccurrences]
  | cons b l ih =>
    simp only [firstOccurrences, List.mem_cons, List.mem_filter, ih]
    by_cases h : a = b <;> simp [h]

theorem firstOccurrences_nodup {α : Type} [DecidableEq α] (l : List α) :
    (firstOccurrences l).Nodup := by
  induction l with
  | nil => simp [firstOccurrences]
  | cons b l ih =>
    simp only [firstOccurrences, List.nodup_cons, List.mem_filter]
    exact ⟨by simp, ih.filter _⟩

theorem firstOccurrences_sublist {α : Type} [DecidableEq α] (l : List α) :
    List.Sublist (firstOccurrences l) l := by
  induction l with
  | nil => simp [firstOccurrences]
  | cons b l ih =>
    simp only [firstOccurrences]
    exact ((List.filter_sublist _).trans ih).cons₂ b

/-- Order of first occurrence: the distinct members of `l₁ ++ l₂` are those of `l₁`
followed by the ones of `l₂` that `l₁` does not have. -/
theorem firstOccurrences_append {α : Type} [DecidableEq α] (l₁ l₂ : List α) :
    firstOccurrences (l₁ ++ l₂) =
      firstOccurrences l₁ ++ (firstOccurrences l₂).filter (fun b => b ∉ l₁) := by
  induction l₁ with
  | nil => simp [firstOccurrences]
  | cons a l ih =>
    show firstOccurrences (a :: (l ++ l₂)) = _
    have hstep : ∀ l0 : List α,
        firstOccurrences (a :: l0) = a :: (firstOccurrences l0).filter (fun b => b ≠ a) :=
      fun _ => rfl
    rw [hstep, hstep, ih, List.filter_append, List.filter_filter, List.cons_append]
    congr 2
    apply List.filter_congr
    intro b _
    simp [List.mem_cons, not_or, and_comm]

/-- The loop of lines 308-317 requests a room for the distinct room pointers of the
paths that are not in `pathEnds` yet, each at its first occurrence. -/
theorem createRooms_eq (s : PathMachine) (ev : ParseEvent) (move : Coordinate)
    (seen : List RoomRef) (l : List Path) :
    createRooms s ev move seen l =
      ((firstOccurrences (l.map Path.getRoom)).filter (fun r => r ∉ seen)).map
        (fun r => Effect.createRoom ev ((s.deref r).position + move)) := by
  induction l generalizing seen with
  | nil => simp [createRooms, firstOccurrences]
  | cons p rest ih =>
    simp only [createRooms, List.map_cons, firstOccurrences]
    by_cases h : p.getRoom ∈ seen
    · rw [if_pos h, ih, List.filter_cons_of_neg (by simpa using h), List.filter_filter]
      congr 1
      apply List.filter_congr
      intro b _
      by_cases hb : b ∈ seen
      · simp [hb]
      · have : b ≠ p.getRoom := fun hbp => hb (hbp ▸ h)
        simp [hb, this]
    · rw [if_neg h, ih, List.filter_cons_of_pos (by simpa using h), List.map_cons,
        List.filter_filter]
      congr 2
      apply List.filter_congr
      intro b _
      simp [List.mem_cons, not_or, and_comm]

/-- C10: on the connectivity-guided branch of `experimenting` (no skipped property,
move code below the size of the exit list of `mostLikelyRoom`), for every hypothesis
set the effects are: one `createRoom` per distinct room pointer held by the leaves,
in order of first occurrence in the set, each at that room's position plus the
offset of the move; then the whole-map query that feeds the `Crossover`; then
effects that are neither `createRoom` nor a query.  Leaves holding the same room
give one request. -/
theorem experimenting_createRoom_requests (env : Env) (s : PathMachine) (ev : ParseEvent)
    (hguard : ev.numSkipped = 0 ∧ ev.moveType < s.mostLikelyRoom.exitsList.length) :
    (∃ rest : List Effect,
      (experimenting env s ev).2 =
        (firstOccurrences (s.paths.map Path.getRoom)).map
          (fun r => Effect.createRoom ev ((s.deref r).position + env.exitDir ev.moveType)) ++
        Effect.lookingForRoomsEvent Recipient.crossover ev :: rest ∧
      ∀ e ∈ rest, e.isQuery = false ∧ e.isCreateRoom = false) ∧
    (firstOccurrences (s.paths.map Path.getRoom)).Nodup ∧
    (∀ r, r ∈ firstOccurrences (s.paths.map Path.getRoom) ↔ ∃ p ∈ s.paths, p.getRoom = r) ∧
    List.Sublist (firstOccurrences (s.paths.map Path.getRoom)) (s.paths.map Path.getRoom) ∧
    ((experimenting env s ev).2.filter Effect.isCreateRoom).length =
      (firstOccurrences (s.paths.map Path.getRoom)).length := by
  have hg : crossoverGuard s ev := hguard
  have heq := experimenting_eq env s ev
  rw [if_pos hg, createRooms_eq] at heq
  simp only [List.not_mem_nil, not_false_eq_true, decide_True, List.filter_true,
    List.append_assoc, List.singleton_append] at heq
  refine ⟨⟨_, congrArg Prod.snd heq, evaluatePaths_not_query _⟩, firstOccurrences_nodup _, ?_,
    firstOccurrences_sublist _, ?_⟩
  · intro r
    rw [mem_firstOccurrences, List.mem_map]
  · rw [heq]
    simp only [List.filter_append, List.length_append, List.filter_cons]
    have h1 : ∀ l : List RoomRef,
        ((l.map (fun r => Effect.createRoom ev
          ((s.deref r).position + env.exitDir ev.moveType))).filter Effect.isCreateRoom).length
          = l.length := by
      intro l
      induction l with
      | nil => rfl
      | cons a l ih => simp [List.filter_cons, Effect.isCreateRoom, ih]
    have h2 : (evaluatePaths { s with paths := strategyResult env s ev }).2.filter
        Effect.isCreateRoom = [] := by
      rw [List.filter_eq_nil_iff]
      intro e he
      simp [(evaluatePaths_not_query _ e he).2]
    rw [h1, h2]
    simp [Effect.isCreateRoom]

/-- Witness of `experimenting_createRoom_requests`: three leaves on rooms 1, 2, 1 and
a move north give two requests, at `(0,1,0)` for room 1 and `(0,2,0)` for room 2,
before the query. -/
theorem experimenting_createRoom_requests_witness :
    (experimenting sampleEnv (experimentingAt roomL) (moveEvent 0 0)).2.take 3 =
      [Effect.createRoom (moveEvent 0 0) ⟨0, 1, 0⟩,
        Effect.createRoom (moveEvent 0 0) ⟨0, 2, 0⟩,
        Effect.lookingForRoomsEvent Recipient.crossover (moveEvent 0 0)] ∧
    ((experimenting sampleEnv (experimentingAt roomL) (moveEvent 0 0)).2.filter
      Effect.isCreateRoom).length = 2 :=
  ⟨by decide,
    (experimenting_createRoom_requests sampleEnv (experimentingAt roomL) (moveEvent 0 0)
      (by decide)).2.2.2.2⟩

/-! ## Evaluation of one leaf and of several leaves -/

/-- C17: when the evaluated set has exactly one leaf, `evaluatePaths` makes the room of
that leaf the current room, calls `approve()` on the leaf, removes it so that the set
is empty in `APPROVED`, and emits `playerMoved` with the position of that room. -/
theorem evaluatePaths_single_leaf (s : PathMachine) (leaf : Path) (h : s.paths = [leaf]) :
    evaluatePaths s =
      ({ s with
          mostLikelyRoom := s.deref leaf.getRoom
          state := PathState.APPROVED
          paths := [] },
        [Effect.approve leaf, Effect.playerMoved (s.deref leaf.getRoom).position]) := by
  simp [evaluatePaths, h]

/-- Witness of `evaluatePaths_single_leaf`: the set holding only `pathB` (room 2). -/
theorem evaluatePaths_single_leaf_witness :
    evaluatePaths { siblingsMachine with paths := [pathB] } =
      ({ siblingsMachine with
          mostLikelyRoom := roomM
          state := PathState.APPROVED
          paths := [] },
        [Effect.approve pathB, Effect.playerMoved ⟨0, 1, 0⟩]) :=
  evaluatePaths_single_leaf { siblingsMachine with paths := [pathB] } pathB rfl

/-- C18: when the evaluated set has two or more leaves, `evaluatePaths` adopts the room
of the first leaf as current best guess and emits its position, ends in
`EXPERIMENTING`, and leaves the set as it was: the only effect is the one
`playerMoved`, so no node is approved, denied or removed. -/
theorem evaluatePaths_many_leaves (s : PathMachine) (a b : Path) (rest : List Path)
    (h : s.paths = a :: b :: rest) :
    evaluatePaths s =
      ({ s with mostLikelyRoom := s.deref a.getRoom, state := PathState.EXPERIMENTING },
        [Effect.playerMoved (s.deref a.getRoom).position]) ∧
    (evaluatePaths s).1.paths = a :: b :: rest := by
  simp [evaluatePaths, h]

/-- Witness of `evaluatePaths_many_leaves`: the set `[pathB, pathA]`. -/
theorem evaluatePaths_many_leaves_witness :
    evaluatePaths { siblingsMachine with paths := [pathB, pathA] } =
      ({ siblingsMachine with mostLikelyRoom := roomM, paths := [pathB, pathA] },
        [Effect.playerMoved ⟨0, 1, 0⟩]) ∧
    (evaluatePaths { siblingsMachine with paths := [pathB, pathA] }).1.paths =
      [pathB, pathA] :=
  evaluatePaths_many_leaves { siblingsMachine with paths := [pathB, pathA] } pathB pathA []
    rfl

/-! ## Invalidation outside `EXPERIMENTING`, retry in `APPROVED` -/

/-- C13: in `SYNCING` or `APPROVED`, `deleteMostLikelyRoom` empties the hypothesis set
and ends in `SYNCING` with no effect at all: no `playerMoved`, no query, not even a
`deny()`. -/
theorem deleteMostLikelyRoom_not_experimenting (s : PathMachine)
    (h : s.state ≠ PathState.EXPERIMENTING) :
    deleteMostLikelyRoom s = ({ s with paths := [], state := PathState.SYNCING }, []) := by
  simp [deleteMostLikelyRoom, h, evaluatePaths]

/-- Witness of `deleteMostLikelyRoom_not_experimenting`: the machine in `APPROVED` at
room 1. -/
theorem deleteMostLikelyRoom_not_experimenting_witness :
    deleteMostLikelyRoom (approvedAt roomL) =
      ({ approvedAt roomL with paths := [], state := PathState.SYNCING }, []) :=
  deleteMostLikelyRoom_not_experimenting (approvedAt roomL) (by decide)

theorem evaluatePaths_lastEvent (s : PathMachine) :
    (evaluatePaths s).1.lastEvent = s.lastEvent := by
  rcases h : s.paths with _ | ⟨a, _ | ⟨b, l⟩⟩ <;> simp [evaluatePaths, h]

theorem experimenting_lastEvent (env : Env) (s : PathMachine) (ev : ParseEvent) :
    (experimenting env s ev).1.lastEvent = s.lastEvent := by
  rw [experimenting_eq]
  exact evaluatePaths_lastEvent _

theorem syncing_lastEvent (env : Env) (s : PathMachine) (ev : ParseEvent) :
    (syncing env s ev).1.lastEvent = s.lastEvent := by
  unfold syncing
  exact evaluatePaths_lastEvent _

theorem approved_lastEvent (env : Env) (s : PathMachine) (ev : ParseEvent) :
    (approved env s ev).1.lastEvent = s.lastEvent := by
  rw [approved_eq]
  cases (approvedLookup env s ev).1 with
  | some m => rfl
  | none => exact experimenting_lastEvent _ _ _

/-- Function `event` retains the observation it is given. -/
theorem event_lastEvent (env : Env) (s : PathMachine) (ev : ParseEvent) :
    (event env s ev).1.lastEvent = some ev := by
  rcases hs : s.state with _ | _ | _
  · simp only [event, hs]
    exact syncing_lastEvent _ _ _
  · simp only [event, hs]
    exact approved_lastEvent _ _ _
  · simp only [event, hs]
    exact experimenting_lastEvent _ _ _

/-- C16: in `APPROVED`, `retry` sets the state to `SYNCING` without touching the
hypothesis set and replays the retained observation: its outcome (machine and
effects) is that of `event` on that observation from the same machine in `SYNCING`;
with nothing retained it only changes the state.  And `event` retains the
observation it was given, so the one replayed is the most recent. -/
theorem retry_approved (env : Env) (s : PathMachine) (h : s.state = PathState.APPROVED) :
    retry env s =
      some (match s.lastEvent with
        | some ev => event env { s with state := PathState.SYNCING } ev
        | none => ({ s with state := PathState.SYNCING }, [])) ∧
    ∀ (env1 : Env) (s1 : PathMachine) (ev1 : ParseEvent),
      (event env1 s1 ev1).1.lastEvent = some ev1 := by
  refine ⟨?_, event_lastEvent⟩
  unfold retry retrySwitch
  rw [h]
  cases hl : s.lastEvent with
  | some ev => simp [hl]
  | none => simp [hl]

/-- Witness of `retry_approved`: in `APPROVED` at room 1 with "move 0" retained, the
replay resynchronises on the whole map, which offers rooms 1 and 2. -/
theorem retry_approved_witness :
    retry sampleEnv { approvedAt roomL with lastEvent := some (moveEvent 0 0) } =
      some (event sampleEnv
        { approvedAt roomL with
            lastEvent := some (moveEvent 0 0)
            state := PathState.SYNCING } (moveEvent 0 0)) :=
  (retry_approved sampleEnv { approvedAt roomL with lastEvent := some (moveEvent 0 0) } rfl).1

/-! ## Invalidation of the best guess in `EXPERIMENTING` -/

/-- The `deny()` calls of the loop: the leaves on the invalidated room, in order. -/
theorem deleteLoop_effects (s : PathMachine) (best : Option Path) (newPaths rest : List Path) :
    (deleteLoop s best newPaths rest).2.2 =
      (rest.filter (pointsAtBest s)).map Effect.deny := by
  induction rest generalizing best newPaths with
  | nil => simp [deleteLoop]
  | cons w rest ih =>
    by_cases hw : (s.deref w.getRoom).id = s.mostLikelyRoom.id
    · simp [deleteLoop, hw, pointsAtBest, ih]
    · cases best with
      | none => simp [deleteLoop, hw, pointsAtBest, ih]
      | some b =>
        by_cases hp : w.getProb > b.getProb
        · simp [deleteLoop, hw, hp, pointsAtBest, ih]
        · simp [deleteLoop, hw, hp, pointsAtBest, ih]

/-- The loop started with a candidate `b`: it ends with a candidate `b1`; `b1` and the
final `newPaths` are `b`, the initial `newPaths` and the surviving leaves rearranged;
no survivor and not `b` has a higher probability than `b1`; and `b1` is `b` unless a
survivor is strictly better, in which case it is the first survivor not beaten
later, all survivors before it being strictly worse. -/
theorem deleteLoop_some (s : PathMachine) (b : Path) (newPaths rest : List Path) :
    ∃ b1 : Path,
      (deleteLoop s (some b) newPaths rest).1 = some b1 ∧
      List.Perm (b1 :: (deleteLoop s (some b) newPaths rest).2.1)
        (b :: newPaths ++ rest.filter (fun p => !pointsAtBest s p)) ∧
      (∀ q ∈ rest.filter (fun p => !pointsAtBest s p), q.getProb ≤ b1.getProb) ∧
      b.getProb ≤ b1.getProb ∧
      (b1 = b ∨ ∃ pre post, rest.filter (fun p => !pointsAtBest s p) = pre ++ b1 :: post ∧
        (∀ q ∈ pre, q.getProb < b1.getProb) ∧ b.getProb < b1.getProb) := by
  induction rest generalizing b newPaths with
  | nil => exact ⟨b, by simp [deleteLoop]⟩
  | cons w rest ih =>
    by_cases hw : (s.deref w.getRoom).id = s.mostLikelyRoom.id
    · obtain ⟨b1, h1, h2, h3, h4, h5⟩ := ih b newPaths
      have hf : (w :: rest).filter (fun p => !pointsAtBest s p) =
          rest.filter (fun p => !pointsAtBest s p) := by
        simp [pointsAtBest, hw]
      refine ⟨b1, ?_, ?_, ?_, h4, ?_⟩
      · simpa [deleteLoop, hw] using h1
      · rw [hf]; simpa [deleteLoop, hw] using h2
      · rw [hf]; exact h3
      · rw [hf]; exact h5
    · have hf : (w :: rest).filter (fun p => !pointsAtBest s p) =
          w :: rest.filter (fun p => !pointsAtBest s p) := by
        simp [pointsAtBest, hw]
      by_cases hp : w.getProb > b.getProb
      · obtain ⟨b1, h1, h2, h3, h4, h5⟩ := ih w (newPaths ++ [b])
        have hstep : deleteLoop s (some b) newPaths (w :: rest) =
            deleteLoop s (some w) (newPaths ++ [b]) rest := by
          simp [deleteLoop, hw, hp]
        refine ⟨b1, ?_, ?_, ?_, ?_, ?_⟩
        · rw [hstep]; exact h1
        · rw [hstep, hf]
          refine h2.trans ?_
          simp only [List.cons_append, List.append_assoc, List.singleton_append,
            List.nil_append]
          exact ((List.perm_middle.cons w).trans (List.Perm.swap b w _)).trans
            (List.perm_middle.symm.cons b)
        · rw [hf]
          intro q hq
          rcases List.mem_cons.1 hq with rfl | hq
          · exact h4
          · exact h3 q hq
        · omega
        · right
          rw [hf]
          rcases h5 with rfl | ⟨pre, post, hpre, hlt, hb⟩
          · exact ⟨[], _, rfl, by simp, hp⟩
          · refine ⟨w :: pre, post, by rw [hpre]; rfl, ?_, by omega⟩
            intro q hq
            rcases List.mem_cons.1 hq with rfl | hq
            · exact hb
            · exact hlt q hq
      · obtain ⟨b1, h1, h2, h3, h4, h5⟩ := ih b (newPaths ++ [w])
        have hstep : deleteLoop s (some b) newPaths (w :: rest) =
            deleteLoop s (some b) (newPaths ++ [w]) rest := by
          simp [deleteLoop, hw, hp]
        refine ⟨b1, ?_, ?_, ?_, h4, ?_⟩
        · rw [hstep]; exact h1
        · rw [hstep, hf]
          refine h2.trans ?_
          simp only [List.cons_append, List.append_assoc, List.singleton_append,
            List.nil_append]
          exact List.Perm.refl _
        · rw [hf]
          intro q hq
          rcases List.mem_cons.1 hq with rfl | hq
          · omega
          · exact h3 q hq
        · rw [hf]
          rcases h5 with rfl | ⟨pre, post, hpre, hlt, hb⟩
          · left; rfl
          · right
            refine ⟨w :: pre, post, by rw [hpre]; rfl, ?_, hb⟩
            intro q hq
            rcases List.mem_cons.1 hq with rfl | hq
            · omega
            · exact hlt q hq

/-- The loop as `deleteMostLikelyRoom` starts it (no candidate, empty `newPaths`):
either no leaf survives and it ends as it started, or it ends with a candidate `b1`
that, with the final `newPaths`, rearranges the survivors, has the highest
probability among them and is the first survivor with that probability. -/
theorem deleteLoop_none (s : PathMachine) (rest : List Path) :
    (rest.filter (fun p => !pointsAtBest s p) = [] ∧
      (deleteLoop s none [] rest).1 = none ∧ (deleteLoop s none [] rest).2.1 = []) ∨
    ∃ b1 : Path,
      (deleteLoop s none [] rest).1 = some b1 ∧
      List.Perm (b1 :: (deleteLoop s none [] rest).2.1)
        (rest.filter (fun p => !pointsAtBest s p)) ∧
      (∀ q ∈ rest.filter (fun p => !pointsAtBest s p), q.getProb ≤ b1.getProb) ∧
      ∃ pre post, rest.filter (fun p => !pointsAtBest s p) = pre ++ b1 :: post ∧
        ∀ q ∈ pre, q.getProb < b1.getProb := by
  induction rest with
  | nil => left; simp [deleteLoop]
  | cons w rest ih =>
    by_cases hw : (s.deref w.getRoom).id = s.mostLikelyRoom.id
    · have hf : (w :: rest).filter (fun p => !pointsAtBest s p) =
          rest.filter (fun p => !pointsAtBest s p) := by
        simp [pointsAtBest, hw]
      have h1 : (deleteLoop s none [] (w :: rest)).1 = (deleteLoop s none [] rest).1 := by
        simp [deleteLoop, hw]
      have h2 : (deleteLoop s none [] (w :: rest)).2.1 = (deleteLoop s none [] rest).2.1 := by
        simp [deleteLoop, hw]
      rw [hf, h1, h2]
      exact ih
    · right
      have hf : (w :: rest).filter (fun p => !pointsAtBest s p) =
          w :: rest.filter (fun p => !pointsAtBest s p) := by
        simp [pointsAtBest, hw]
      have hstep : deleteLoop s none [] (w :: rest) = deleteLoop s (some w) [] rest := by
        simp [deleteLoop, hw]
      obtain ⟨b1, h1, h2, h3, h4, h5⟩ := deleteLoop_some s w [] rest
      rw [hstep, hf]
      refine ⟨b1, h1, by simpa using h2, ?_, ?_⟩
      · intro q hq
        rcases List.mem_cons.1 hq with rfl | hq
        · exact h4
        · exact h3 q hq
      · rcases h5 with rfl | ⟨pre, post, hpre, hlt, hb⟩
        · exact ⟨[], _, rfl, by simp⟩
        · refine ⟨w :: pre, post, by rw [hpre]; rfl, ?_⟩
          intro q hq
          rcases List.mem_cons.1 hq with rfl | hq
          · exact hb
          · exact hlt q hq

/-- The list that replaces `paths`: the surviving leaves rearranged, a first one of
highest probability in front. -/
theorem prunedPaths_spec (s : PathMachine) :
    List.Perm (prunedPaths s) (s.paths.filter (fun p => !pointsAtBest s p)) ∧
    ∀ best tail, prunedPaths s = best :: tail →
      (∀ q ∈ s.paths.filter (fun p => !pointsAtBest s p), q.getProb ≤ best.getProb) ∧
      ∃ pre post, s.paths.filter (fun p => !pointsAtBest s p) = pre ++ best :: post ∧
        ∀ q ∈ pre, q.getProb < best.getProb := by
  unfold prunedPaths
  rcases deleteLoop_none s s.paths with ⟨h0, h1, h2⟩ | ⟨b1, h1, h2, h3, h4⟩
  · rw [h1, h2, h0]
    simp
  · rw [h1]
    refine ⟨h2, ?_⟩
    intro best tail hbt
    simp only [List.cons.injEq] at hbt
    obtain ⟨rfl, _⟩ := hbt
    exact ⟨h3, h4⟩

theorem evaluatePaths_paths_subset (s : PathMachine) :
    ∀ q ∈ (evaluatePaths s).1.paths, q ∈ s.paths := by
  rcases h : s.paths with _ | ⟨a, _ | ⟨b, l⟩⟩ <;> simp [evaluatePaths, h]

theorem evaluatePaths_no_deny (s : PathMachine) :
    (evaluatePaths s).2.filter Effect.isDeny = [] := by
  rcases h : s.paths with _ | ⟨a, _ | ⟨b, l⟩⟩ <;> simp [evaluatePaths, h, Effect.isDeny]

/-- The best guess `evaluatePaths` adopts from a non-empty set is the first leaf. -/
theorem evaluatePaths_mostLikelyRoom (s : PathMachine) (front : Path) (tail : List Path)
    (h : s.paths = front :: tail) :
    (evaluatePaths s).1.mostLikelyRoom = s.deref front.getRoom := by
  rcases tail with _ | ⟨b, l⟩ <;> simp [evaluatePaths, h]

/-- In `EXPERIMENTING`, `deleteMostLikelyRoom` evaluates the pruned list after the
`deny()` calls of the loop. -/
theorem deleteMostLikelyRoom_eq (s : PathMachine) (h : s.state = PathState.EXPERIMENTING) :
    deleteMostLikelyRoom s =
      ((evaluatePaths { s with paths := prunedPaths s }).1,
        (s.paths.filter (pointsAtBest s)).map Effect.deny ++
          (evaluatePaths { s with paths := prunedPaths s }).2) := by
  simp [deleteMostLikelyRoom, h, deleteLoop_effects]

theorem filter_isDeny_map_deny (l : List Path) :
    (l.map Effect.deny).filter Effect.isDeny = l.map Effect.deny := by
  rw [List.filter_eq_self]
  intro e he
  obtain ⟨p, _, rfl⟩ := List.mem_map.1 he
  rfl

/-- C11: in `EXPERIMENTING`, `deleteMostLikelyRoom` calls `deny()` on every leaf whose
room id is the id of the current best guess (and its `deny()` calls are exactly
these, in order); no such leaf is in the list handed to re-evaluation nor in the
resulting hypothesis set; and whenever a leaf remains, the best guess adopted by the
re-evaluation has a room id different from the invalidated one. -/
theorem deleteMostLikelyRoom_denies_best (s : PathMachine)
    (hstate : s.state = PathState.EXPERIMENTING) :
    (deleteMostLikelyRoom s).2.filter Effect.isDeny =
      (s.paths.filter (pointsAtBest s)).map Effect.deny ∧
    (∀ p ∈ s.paths, (s.deref p.getRoom).id = s.mostLikelyRoom.id →
      Effect.deny p ∈ (deleteMostLikelyRoom s).2) ∧
    (∀ q ∈ prunedPaths s, (s.deref q.getRoom).id ≠ s.mostLikelyRoom.id) ∧
    (∀ q ∈ (deleteMostLikelyRoom s).1.paths, (s.deref q.getRoom).id ≠ s.mostLikelyRoom.id) ∧
    (prunedPaths s ≠ [] →
      (deleteMostLikelyRoom s).1.mostLikelyRoom.id ≠ s.mostLikelyRoom.id) := by
  have heq := deleteMostLikelyRoom_eq s hstate
  have hpruned : ∀ q ∈ prunedPaths s, (s.deref q.getRoom).id ≠ s.mostLikelyRoom.id := by
    intro q hq
    have hmem := (prunedPaths_spec s).1.subset hq
    simpa [pointsAtBest] using (List.mem_filter.1 hmem).2
  refine ⟨?_, ?_, hpruned, ?_, ?_⟩
  · rw [heq]
    simp only [List.filter_append, evaluatePaths_no_deny, List.append_nil,
      filter_isDeny_map_deny]
  · intro p hp hid
    rw [heq]
    apply List.mem_append_left
    exact List.mem_map.2 ⟨p, List.mem_filter.2 ⟨hp, by simp [pointsAtBest, hid]⟩, rfl⟩
  · intro q hq
    rw [heq] at hq
    exact hpruned q (evaluatePaths_paths_subset _ q hq)
  · intro hne
    rw [heq]
    obtain ⟨front, tail, hft⟩ := List.exists_cons_of_ne_nil hne
    have hm := evaluatePaths_mostLikelyRoom { s with paths := prunedPaths s } front tail hft
    simp only at hm
    rw [hm]
    exact hpruned front (by rw [hft]; exact List.mem_cons_self _ _)

/-- Witness of `deleteMostLikelyRoom_denies_best`: best guess room 1, leaves on rooms
1, 2, 1: both leaves on room 1 are denied and room 2 becomes the current room. -/
theorem deleteMostLikelyRoom_denies_best_witness :
    (deleteMostLikelyRoom (experimentingAt roomL)).2.filter Effect.isDeny =
      [Effect.deny (Path.root 1 (RoomRef.mapRoom roomL) 5),
        Effect.deny (Path.root 3 (RoomRef.mapRoom roomL) 3)] ∧
    (deleteMostLikelyRoom (experimentingAt roomL)).1.mostLikelyRoom.id = 2 :=
  ⟨(deleteMostLikelyRoom_denies_best (experimentingAt roomL) rfl).1, by decide⟩

/-- C12, as stated, fails: with best guess room 1 and leaves on rooms 1, 2, 2, 2 (the
last three with probabilities 1, 3, 3), `deleteMostLikelyRoom` denies only the leaf on
room 1 and keeps all three leaves on room 2, the second of them moved in front of the
first: the resulting set has three nodes with room id 2 and is not in input order. -/
theorem deleteMostLikelyRoom_keeps_same_room_leaves :
    rivalsMachine.state = PathState.EXPERIMENTING ∧
    (deleteMostLikelyRoom rivalsMachine).1.paths =
      [Path.root 3 (RoomRef.mapRoom roomM) 3, Path.root 2 (RoomRef.mapRoom roomM) 1,
        Path.root 4 (RoomRef.mapRoom roomM) 3] ∧
    (deleteMostLikelyRoom rivalsMachine).2 =
      [Effect.deny (Path.root 1 (RoomRef.mapRoom roomL) 9), Effect.playerMoved ⟨0, 1, 0⟩] ∧
    ((deleteMostLikelyRoom rivalsMachine).1.paths.map
      (fun p => (rivalsMachine.deref p.getRoom).id)) = [2, 2, 2] := by
  refine ⟨rfl, rfl, rfl, rfl⟩

/-- C12 (amended): in `EXPERIMENTING`, among the leaves that do not point at the
invalidated room `deleteMostLikelyRoom` denies none and keeps every one, whatever
their room ids: the list handed to re-evaluation is a rearrangement of exactly
those leaves (same length, same number of occurrences of each), whose first node has
the highest probability; nothing is removed for sharing a room id. -/
theorem deleteMostLikelyRoom_keeps_survivors (s : PathMachine)
    (hstate : s.state = PathState.EXPERIMENTING) :
    (∀ p, Effect.deny p ∈ (deleteMostLikelyRoom s).2 →
      p ∈ s.paths ∧ (s.deref p.getRoom).id = s.mostLikelyRoom.id) ∧
    (∀ p, (prunedPaths s).count p =
      (s.paths.filter (fun q => !pointsAtBest s q)).count p) ∧
    (prunedPaths s).length = (s.paths.filter (fun q => !pointsAtBest s q)).length ∧
    (∀ best tail, prunedPaths s = best :: tail → ∀ q ∈ tail, q.getProb ≤ best.getProb) := by
  have heq := deleteMostLikelyRoom_eq s hstate
  have hspec := prunedPaths_spec s
  refine ⟨?_, fun p => hspec.1.count_eq p, hspec.1.length_eq, ?_⟩
  · intro p hp
    rw [heq] at hp
    rcases List.mem_append.1 hp with hp | hp
    · obtain ⟨q, hq, hqp⟩ := List.mem_map.1 hp
      cases hqp
      have := List.mem_filter.1 hq
      exact ⟨this.1, by simpa [pointsAtBest] using this.2⟩
    · have hnone := evaluatePaths_no_deny { s with paths := prunedPaths s }
      rw [List.filter_eq_nil_iff] at hnone
      exact absurd rfl (hnone _ hp)
  · intro best tail hbt q hq
    have hq2 : q ∈ prunedPaths s := by rw [hbt]; exact List.mem_cons_of_mem _ hq
    exact (hspec.2 best tail hbt).1 q (hspec.1.subset hq2)

/-- Witness of `deleteMostLikelyRoom_keeps_survivors`: the three leaves on room 2 of
`rivalsMachine` all survive. -/
theorem deleteMostLikelyRoom_keeps_survivors_witness :
    (prunedPaths rivalsMachine).length = 3 :=
  (deleteMostLikelyRoom_keeps_survivors rivalsMachine rfl).2.2.1

/-- C20: in `EXPERIMENTING`, the list `deleteMostLikelyRoom` hands to re-evaluation is
a permutation of exactly the input leaves whose room id differs from the invalidated
one; when it is not empty its first node has a probability at least that of every
other node and is the earliest leaf of the input with that probability (every
surviving leaf before it is strictly less probable); and the re-evaluation adopts the
room of that node as best guess. -/
theorem deleteMostLikelyRoom_best_first (s : PathMachine)
    (hstate : s.state = PathState.EXPERIMENTING) :
    List.Perm (prunedPaths s)
      (s.paths.filter (fun p => decide ((s.deref p.getRoom).id ≠ s.mostLikelyRoom.id))) ∧
    ∀ best tail, prunedPaths s = best :: tail →
      (∀ q ∈ tail, q.getProb ≤ best.getProb) ∧
      (∃ pre post,
        s.paths.filter (fun p => decide ((s.deref p.getRoom).id ≠ s.mostLikelyRoom.id)) =
          pre ++ best :: post ∧
        (∀ q ∈ pre, q.getProb < best.getProb) ∧ (∀ q ∈ post, q.getProb ≤ best.getProb)) ∧
      (deleteMostLikelyRoom s).1.mostLikelyRoom = s.deref best.getRoom := by
  have hfilter : s.paths.filter (fun p => decide ((s.deref p.getRoom).id ≠ s.mostLikelyRoom.id))
      = s.paths.filter (fun p => !pointsAtBest s p) := by
    apply List.filter_congr
    intro p _
    simp [pointsAtBest]
  rw [hfilter]
  have hspec := prunedPaths_spec s
  refine ⟨hspec.1, ?_⟩
  intro best tail hbt
  obtain ⟨hmax, pre, post, hsplit, hpre⟩ := hspec.2 best tail hbt
  refine ⟨?_, ⟨pre, post, hsplit, hpre, ?_⟩, ?_⟩
  · intro q hq
    have hq2 : q ∈ prunedPaths s := by rw [hbt]; exact List.mem_cons_of_mem _ hq
    exact hmax q (hspec.1.subset hq2)
  · intro q hq
    apply hmax
    rw [hsplit]
    exact List.mem_append_right _ (List.mem_cons_of_mem _ hq)
  · rw [deleteMostLikelyRoom_eq s hstate]
    exact evaluatePaths_mostLikelyRoom { s with paths := prunedPaths s } best tail hbt

/-- Witness of `deleteMostLikelyRoom_best_first`: of the survivors with probabilities
1, 3, 3 the first leaf with probability 3 (address 3) comes to the front and its
room, room 2, is adopted. -/
theorem deleteMostLikelyRoom_best_first_witness :
    (∀ q ∈ [Path.root 2 (RoomRef.mapRoom roomM) 1, Path.root 4 (RoomRef.mapRoom roomM) 3],
      q.getProb ≤ (Path.root 3 (RoomRef.mapRoom roomM) 3).getProb) ∧
    (deleteMostLikelyRoom rivalsMachine).1.mostLikelyRoom = roomM :=
  ⟨((deleteMostLikelyRoom_best_first rivalsMachine rfl).2
      (Path.root 3 (RoomRef.mapRoom roomM) 3)
      [Path.root 2 (RoomRef.mapRoom roomM) 1, Path.root 4 (RoomRef.mapRoom roomM) 3] rfl).1,
    ((deleteMostLikelyRoom_best_first rivalsMachine rfl).2
      (Path.root 3 (RoomRef.mapRoom roomM) 3)
      [Path.root 2 (RoomRef.mapRoom roomM) 1, Path.root 4 (RoomRef.mapRoom roomM) 3] rfl).2.2⟩

/-! ## Retry -/

theorem mem_firstByAddr (l : List Path) (q : Path) (h : q ∈ firstByAddr l) : q ∈ l := by
  induction l with
  | nil => simp [firstByAddr] at h
  | cons p l ih =>
    simp only [firstByAddr, List.mem_cons, List.mem_filter] at h
    rcases h with rfl | ⟨h, _⟩
    · exact List.mem_cons_self _ _
    · exact List.mem_cons_of_mem _ (ih h)

theorem addr_mem_firstByAddr (l : List Path) (q : Path) (h : q ∈ l) :
    q.addr ∈ (firstByAddr l).map Path.addr := by
  induction l with
  | nil => simp at h
  | cons p l ih =>
    simp only [firstByAddr, List.map_cons, List.mem_cons]
    by_cases hqp : q.addr = p.addr
    · left; exact hqp
    · right
      rcases List.mem_cons.1 h with rfl | h
      · exact absurd rfl hqp
      · obtain ⟨x, hx, hxa⟩ := List.mem_map.1 (ih h)
        refine List.mem_map.2 ⟨x, List.mem_filter.2 ⟨hx, ?_⟩, hxa⟩
        simpa [hxa] using hqp

theorem firstByAddr_nodup (l : List Path) : ((firstByAddr l).map Path.addr).Nodup := by
  induction l with
  | nil => simp [firstByAddr]
  | cons p l ih =>
    simp only [firstByAddr, List.map_cons, List.nodup_cons, List.mem_map, List.mem_filter]
    refine ⟨?_, ?_⟩
    · rintro ⟨x, ⟨_, hx⟩, hxa⟩
      simp [hxa] at hx
    · exact (ih.sublist ((List.filter_sublist _).map _))

theorem firstByAddr_sublist (l : List Path) : List.Sublist (firstByAddr l) l := by
  induction l with
  | nil => simp [firstByAddr]
  | cons p l ih =>
    simp only [firstByAddr]
    exact ((List.filter_sublist _).trans ih).cons₂ p

/-- The loop of `retry` on leaves that are distinct objects, not met before, each
with a parent: it completes, adds to `newPaths` the distinct parents not yet in
`prevPaths`, at their first occurrence, and detaches then denies each leaf. -/
theorem retryLoop_eq (visited prevPaths : List Nat) (newPaths l : List Path)
    (hfresh : ∀ w ∈ l, w.addr ∉ visited) (hdistinct : (l.map Path.addr).Nodup)
    (hparent : ∀ w ∈ l, w.getParent ≠ none) :
    retryLoop visited prevPaths newPaths l =
      some (newPaths ++
          (firstByAddr (l.filterMap Path.getParent)).filter (fun q => q.addr ∉ prevPaths),
        detachEffects l) := by
  induction l generalizing visited prevPaths newPaths with
  | nil => simp [retryLoop, firstByAddr, detachEffects]
  | cons w rest ih =>
    have hw : w.addr ∉ visited := hfresh w (List.mem_cons_self _ _)
    obtain ⟨q, hq⟩ := Option.ne_none_iff_exists'.1 (hparent w (List.mem_cons_self _ _))
    rw [List.map_cons, List.nodup_cons] at hdistinct
    have hfresh2 : ∀ x ∈ rest, x.addr ∉ w.addr :: visited := by
      intro x hx hmem
      rcases List.mem_cons.1 hmem with h | h
      · exact hdistinct.1 (h ▸ List.mem_map_of_mem _ hx)
      · exact hfresh x (List.mem_cons_of_mem _ hx) h
    have hparent2 : ∀ x ∈ rest, x.getParent ≠ none :=
      fun x hx => hparent x (List.mem_cons_of_mem _ hx)
    have hdet : detachEffects (w :: rest) =
        [Effect.removeChild q w, Effect.setParentNull w, Effect.deny w] ++
          detachEffects rest := by
      simp [detachEffects, hq]
    have hfm : (w :: rest).filterMap Path.getParent = q :: rest.filterMap Path.getParent := by
      simp [List.filterMap_cons, hq]
    simp only [retryLoop, hw, if_false, hq]
    rw [hfm, hdet]
    by_cases hin : q.addr ∈ prevPaths
    · rw [if_pos hin, ih _ _ _ hfresh2 hdistinct.2 hparent2]
      simp only [Option.map_some', firstByAddr]
      rw [List.filter_cons_of_neg (by simpa using hin), List.filter_filter]
      congr 3
      apply List.filter_congr
      intro x _
      by_cases hx : x.addr ∈ prevPaths
      · simp [hx]
      · have : x.addr ≠ q.addr := fun h => hx (h ▸ hin)
        simp [hx, this]
    · rw [if_neg hin, ih _ _ _ hfresh2 hdistinct.2 hparent2]
      simp only [Option.map_some', firstByAddr]
      rw [List.filter_cons_of_pos (by simpa using hin), List.filter_filter]
      simp only [List.append_assoc, List.singleton_append]
      congr 4
      apply List.filter_congr
      intro x _
      simp [List.mem_cons, not_or, Bool.and_comm]

theorem filter_isDeny_detachEffects (l : List Path) (h : ∀ w ∈ l, w.getParent ≠ none) :
    (detachEffects l).filter Effect.isDeny = l.map Effect.deny := by
  induction l with
  | nil => simp [detachEffects]
  | cons w rest ih =>
    obtain ⟨q, hq⟩ := Option.ne_none_iff_exists'.1 (h w (List.mem_cons_self _ _))
    have hdet : detachEffects (w :: rest) =
        [Effect.removeChild q w, Effect.setParentNull w, Effect.deny w] ++
          detachEffects rest := by
      simp [detachEffects, hq]
    rw [hdet, List.filter_append, ih (fun x hx => h x (List.mem_cons_of_mem _ hx))]
    simp [Effect.isDeny]

/-- C14: in `EXPERIMENTING`, when every leaf has a parent (the leaves being distinct
objects), `retry` replaces the hypothesis set by the parents of the leaves with
repeated objects removed, in order of first occurrence; for each leaf in turn it
calls `removeChild` on the parent, clears the leaf's parent pointer and only then
denies the leaf, and these are its only `deny()` calls; the state becomes `SYNCING`
only if no parent remains; and the retained observation is then replayed through
`event` on that set. -/
theorem retry_experimenting_parents (env : Env) (s : PathMachine) (ev : ParseEvent)
    (hstate : s.state = PathState.EXPERIMENTING)
    (hparent : ∀ w ∈ s.paths, w.getParent ≠ none)
    (hdistinct : (s.paths.map Path.addr).Nodup)
    (hevent : s.lastEvent = some ev) :
    retry env s =
      some
        ((event env
            { s with
                paths := firstByAddr (s.paths.filterMap Path.getParent)
                state :=
                  if firstByAddr (s.paths.filterMap Path.getParent) = [] then
                    PathState.SYNCING
                  else PathState.EXPERIMENTING } ev).1,
          detachEffects s.paths ++
            (event env
              { s with
                  paths := firstByAddr (s.paths.filterMap Path.getParent)
                  state :=
                    if firstByAddr (s.paths.filterMap Path.getParent) = [] then
                      PathState.SYNCING
                    else PathState.EXPERIMENTING } ev).2) ∧
    ((firstByAddr (s.paths.filterMap Path.getParent)).map Path.addr).Nodup ∧
    (∀ w ∈ s.paths, ∀ q, w.getParent = some q →
      q.addr ∈ (firstByAddr (s.paths.filterMap Path.getParent)).map Path.addr) ∧
    List.Sublist (firstByAddr (s.paths.filterMap Path.getParent))
      (s.paths.filterMap Path.getParent) ∧
    (detachEffects s.paths).filter Effect.isDeny = s.paths.map Effect.deny := by
  refine ⟨?_, firstByAddr_nodup _, ?_, firstByAddr_sublist _,
    filter_isDeny_detachEffects _ hparent⟩
  · have hloop := retryLoop_eq [] [] [] s.paths (by simp) hdistinct hparent
    simp only [List.not_mem_nil, not_false_eq_true, decide_True, List.filter_true,
      List.nil_append] at hloop
    unfold retry retrySwitch
    rw [hstate, hloop]
    simp [hevent]
  · intro w hw q hq
    apply addr_mem_firstByAddr
    exact List.mem_filterMap.2 ⟨w, hw, hq⟩

/-- Witness of `retry_experimenting_parents` (scenario F): the leaves `pathA`, `pathB`
share the parent `pathP`; the set replayed on is `[pathP]`. -/
theorem retry_experimenting_parents_witness :
    retry sampleEnv siblingsMachine =
      some
        ((event sampleEnv { siblingsMachine with paths := [pathP] } (moveEvent 0 0)).1,
          [Effect.removeChild pathP pathA, Effect.setParentNull pathA, Effect.deny pathA,
            Effect.removeChild pathP pathB, Effect.setParentNull pathB, Effect.deny pathB] ++
          (event sampleEnv { siblingsMachine with paths := [pathP] } (moveEvent 0 0)).2) :=
  (retry_experimenting_parents sampleEnv siblingsMachine (moveEvent 0 0) rfl
    (by decide) (by decide) rfl).1

/-- C15: `retry` is not defined on a set with a parentless leaf.  After a resync of
the freshly constructed machine that matches rooms 1 and 2, the machine is in
`EXPERIMENTING` with two single-node trees, neither with a parent; `retry` then
calls `removeChild` through the null `previous` of the first leaf (line 92, before
the test of line 95) and does not complete. -/
theorem retry_parentless_leaf_undefined :
    (event sampleEnv syncingMachine (moveEvent 0 0)).1.state = PathState.EXPERIMENTING ∧
    (event sampleEnv syncingMachine (moveEvent 0 0)).1.paths =
      [Path.root 100 (RoomRef.mapRoom roomL) 1, Path.root 101 (RoomRef.mapRoom roomM) 1] ∧
    (∀ p ∈ (event sampleEnv syncingMachine (moveEvent 0 0)).1.paths, p.getParent = none) ∧
    retry sampleEnv (event sampleEnv syncingMachine (moveEvent 0 0)).1 = none := by
  refine ⟨rfl, rfl, by decide, rfl⟩

/-! ## State and hypothesis set agree in every reachable machine -/

/-- What `evaluatePaths` leaves is consistent as soon as an observation is retained
when the set is not empty. -/
theorem evaluatePaths_consistent (s : PathMachine)
    (h : s.paths ≠ [] → s.lastEvent ≠ none) : Consistent (evaluatePaths s).1 := by
  rcases hp : s.paths with _ | ⟨a, _ | ⟨b, l⟩⟩
  · simp [Consistent, evaluatePaths, hp]
  · have hl := h (by simp [hp])
    simp [Consistent, evaluatePaths, hp, hl]
  · have hl := h (by simp [hp])
    simp [Consistent, evaluatePaths, hp, hl]

theorem experimenting_consistent (env : Env) (s : PathMachine) (ev : ParseEvent)
    (h : s.lastEvent ≠ none) : Consistent (experimenting env s ev).1 := by
  rw [experimenting_eq]
  exact evaluatePaths_consistent _ (fun _ => h)

theorem syncing_consistent (env : Env) (s : PathMachine) (ev : ParseEvent)
    (h : s.lastEvent ≠ none) : Consistent (syncing env s ev).1 := by
  unfold syncing
  exact evaluatePaths_consistent _ (fun _ => h)

theorem approved_consistent (env : Env) (s : PathMachine) (ev : ParseEvent)
    (hstate : s.state = PathState.APPROVED) (hpaths : s.paths = [])
    (h : s.lastEvent ≠ none) : Consistent (approved env s ev).1 := by
  rw [approved_eq]
  cases (approvedLookup env s ev).1 with
  | some m => simp [Consistent, hstate, hpaths, h]
  | none => exact experimenting_consistent _ _ _ h

/-- One call of `event` ends in a consistent machine, provided the set was empty if
the call started in `APPROVED`. -/
theorem event_consistent (env : Env) (s : PathMachine) (ev : ParseEvent)
    (h : s.state = PathState.APPROVED → s.paths = []) : Consistent (event env s ev).1 := by
  rcases hs : s.state with _ | _ | _
  · simp only [event, hs]
    exact syncing_consistent _ _ _ (by simp)
  · simp only [event, hs]
    exact approved_consistent _ _ _ rfl (h hs) (by simp)
  · simp only [event, hs]
    exact experimenting_consistent _ _ _ (by simp)

theorem deleteMostLikelyRoom_consistent (s : PathMachine) (h : Consistent s) :
    Consistent (deleteMostLikelyRoom s).1 := by
  by_cases hs : s.state = PathState.EXPERIMENTING
  · rw [deleteMostLikelyRoom_eq s hs]
    apply evaluatePaths_consistent
    intro _
    exact h.2.2.2 (by simp [hs])
  · simp only [deleteMostLikelyRoom, hs, if_false]
    exact evaluatePaths_consistent _ (by simp)

theorem releaseAllPaths_consistent (s : PathMachine) : Consistent (releaseAllPaths s).1 := by
  simp [Consistent, releaseAllPaths]

theorem retry_consistent (env : Env) (s : PathMachine) (r : PathMachine × List Effect)
    (h : Consistent s) (hr : retry env s = some r) : Consistent r.1 := by
  unfold retry at hr
  rcases hsw : retrySwitch s with _ | ⟨s1, tr⟩
  · simp [hsw] at hr
  · have hnotApproved : s1.state ≠ PathState.APPROVED ∧ s1.lastEvent = s.lastEvent ∧
        (s1.lastEvent = none → Consistent s1) := by
      unfold retrySwitch at hsw
      rcases hs : s.state with _ | _ | _
      · rw [hs] at hsw
        simp only [Option.some.injEq, Prod.mk.injEq] at hsw
        obtain ⟨rfl, _⟩ := hsw
        exact ⟨by simp [hs], rfl, fun _ => h⟩
      · rw [hs] at hsw
        simp only [Option.some.injEq, Prod.mk.injEq] at hsw
        obtain ⟨rfl, _⟩ := hsw
        refine ⟨by simp, rfl, ?_⟩
        intro hnone
        exact absurd hnone (h.2.2.2 (by simp [hs]))
      · rw [hs] at hsw
        rcases hloop : retryLoop [] [] [] s.paths with _ | ⟨l, tr0⟩
        · simp [hloop] at hsw
        · simp only [hloop, Option.map_some', Option.some.injEq, Prod.mk.injEq] at hsw
          obtain ⟨rfl, _⟩ := hsw
          refine ⟨?_, rfl, ?_⟩
          · simp only
            split <;> simp
          · intro hnone
            exact absurd hnone (h.2.2.2 (by simp [hs]))
    rw [hsw] at hr
    simp only [Option.map_some', Option.some.injEq] at hr
    rcases hl : s1.lastEvent with _ | ev
    · rw [hl] at hr
      simp only at hr
      rw [← hr]
      exact hnotApproved.2.2 hl
    · rw [hl] at hr
      simp only at hr
      rw [← hr]
      exact event_consistent env s1 ev (fun hA => absurd hA hnotApproved.1)

/-- C19: in every machine reachable from the freshly constructed one (`SYNCING`, empty
set, nothing retained) by calls of `event`, `retry`, `deleteMostLikelyRoom` and
`releaseAllPaths` that complete, whatever the map, the matchers and the strategies
answer in each call, the hypothesis set is empty when the state is `SYNCING` or
`APPROVED` and has at least two leaves when it is `EXPERIMENTING`, and an
observation is retained whenever the state is not `SYNCING`. -/
theorem reachable_consistent (s : PathMachine) (h : Reachable s) :
    (s.state = PathState.SYNCING → s.paths = []) ∧
    (s.state = PathState.APPROVED → s.paths = []) ∧
    (s.state = PathState.EXPERIMENTING → 2 ≤ s.paths.length) ∧
    (s.state ≠ PathState.SYNCING → s.lastEvent ≠ none) := by
  have hc : Consistent s := by
    induction h with
    | init s hstate hpaths hevent => simp [Consistent, hstate, hpaths]
    | event env s ev _ ih => exact event_consistent env s ev ih.2.1
    | retry env s r _ hr ih => exact retry_consistent env s r ih hr
    | deleteMostLikelyRoom s _ ih => exact deleteMostLikelyRoom_consistent s ih
    | releaseAllPaths s _ _ => exact releaseAllPaths_consistent s
  exact hc

/-- Witness of `reachable_consistent`: the freshly constructed machine resynchronises
on rooms 1 and 2 (`EXPERIMENTING`, two leaves), has its best guess invalidated
(`APPROVED` at room 2, empty set) and is asked to retry. -/
theorem reachable_consistent_witness :
    (deleteMostLikelyRoom (event sampleEnv syncingMachine (moveEvent 0 0)).1).1.state =
      PathState.APPROVED ∧
    (deleteMostLikelyRoom (event sampleEnv syncingMachine (moveEvent 0 0)).1).1.paths = [] ∧
    ∀ r, retry sampleEnv
        (deleteMostLikelyRoom (event sampleEnv syncingMachine (moveEvent 0 0)).1).1 = some r →
      (r.1.state = PathState.EXPERIMENTING → 2 ≤ r.1.paths.length) :=
  ⟨rfl,
    (reachable_consistent _
      (Reachable.deleteMostLikelyRoom _
        (Reachable.event sampleEnv syncingMachine (moveEvent 0 0)
          (Reachable.init syncingMachine rfl rfl rfl)))).2.1 rfl,
    fun r hr =>
      (reachable_consistent r.1
        (Reachable.retry sampleEnv _ r
          (Reachable.deleteMostLikelyRoom _
            (Reachable.event sampleEnv syncingMachine (moveEvent 0 0)
              (Reachable.init syncingMachine rfl rfl rfl))) hr)).2.2.1⟩

end MMapper
